import Mathlib

/-!
Verification development for the RecallAi documentation pipeline
(backend services under `src/backend/src`).

Python machine integers are unbounded, so `Nat`/`Int` model them directly.
I/O boundaries (LLM calls, embedding calls, FAISS search hits, the MongoDB
collection) are modelled as explicit parameters or state values; fallible
code returns `Option`/`Except`.
-/

namespace RecallAi

/-! ### String primitives

The Python string operations used by the services, re-implemented by
structural recursion on the character list so that every definition
evaluates inside the kernel. -/

/-- Python `str.strip()` on a character list. -/
def pyStripChars (l : List Char) : List Char :=
  ((l.dropWhile Char.isWhitespace).reverse.dropWhile Char.isWhitespace).reverse

/-- Python `str.strip()`. -/
def pyStrip (s : String) : String := String.mk (pyStripChars s.data)

/-- Helper for Python `str.split()`: `acc` is the current (reversed) run of
non-whitespace characters. -/
def wsSplitAux : List Char → List Char → List String
  | [], acc => if acc.isEmpty then [] else [String.mk acc.reverse]
  | c :: rest, acc =>
    if c.isWhitespace then
      if acc.isEmpty then wsSplitAux rest []
      else String.mk acc.reverse :: wsSplitAux rest []
    else wsSplitAux rest (c :: acc)

/-- Python `str.split()`: split on whitespace runs, dropping empty pieces. -/
def pySplit (s : String) : List String := wsSplitAux s.data []

/-- Word count of a string, as `len(s.split())`. -/
def countWords (s : String) : Nat := (pySplit s).length

/-- Python `" ".join(ws)`. -/
def joinWords : List String → String
  | [] => ""
  | [w] => w
  | w :: ws => w ++ " " ++ joinWords ws

/-- `chStarts pre l`: `l` starts with the characters `pre`. -/
def chStarts : List Char → List Char → Bool
  | [], _ => true
  | _ :: _, [] => false
  | p :: ps, c :: cs => p = c && chStarts ps cs

/-- Python `s.startswith(pre)`. -/
def sStartsWith (s pre : String) : Bool := chStarts pre.data s.data

/-- `chInfix pat l`: `pat` occurs as a contiguous run inside `l`. -/
def chInfix (pat : List Char) : List Char → Bool
  | [] => pat.isEmpty
  | c :: cs => chStarts pat (c :: cs) || chInfix pat cs

/-- Python `str.lower()` (ASCII case folding suffices for the fixed
patterns and extensions involved). -/
def lowerStr (s : String) : String := String.mk (s.data.map Char.toLower)

/-- Helper for Python `text.split("\n")` (empty pieces kept). -/
def splitLinesAux : List Char → List Char → List String
  | [], acc => [String.mk acc.reverse]
  | c :: rest, acc =>
    if c = '\n' then String.mk acc.reverse :: splitLinesAux rest []
    else splitLinesAux rest (c :: acc)

/-- Python `text.split("\n")`. -/
def splitLines (s : String) : List String := splitLinesAux s.data []

/-- A sentence-ending character as in the regex class `[.!?]`. -/
def isSentenceEnd (c : Char) : Bool := c = '.' || c = '!' || c = '?'

/-- `re.split(r'[.!?]\s+', text)` as a one-pass state machine, scanning left
to right: a sentence-ending character followed by at least one whitespace
character is a separator (its whitespace run is consumed greedily), and the
pieces between separators are returned. State: `skip` is true while inside
the whitespace run of a separator; `pending` holds a just-seen
sentence-ending character whose status (separator start or ordinary text)
depends on the next character; `acc` is the current piece, reversed. -/
def splitSentencesAux : List Char → Bool → Option Char → List Char → List (List Char)
  | [], skip, pending, acc =>
    if skip then [[]]
    else
      match pending with
      | some p => [(p :: acc).reverse]
      | none => [acc.reverse]
  | c :: rest, skip, pending, acc =>
    if skip then
      if c.isWhitespace then splitSentencesAux rest true none []
      else if isSentenceEnd c then splitSentencesAux rest false (some c) []
      else splitSentencesAux rest false none [c]
    else
      match pending with
      | some p =>
        if c.isWhitespace then acc.reverse :: splitSentencesAux rest true none []
        else if isSentenceEnd c then splitSentencesAux rest false (some c) (p :: acc)
        else splitSentencesAux rest false none (c :: p :: acc)
      | none =>
        if isSentenceEnd c then splitSentencesAux rest false (some c) acc
        else splitSentencesAux rest false none (c :: acc)

/-- The raw piece list of `re.split(r'[.!?]\s+', text)`. -/
def splitSentences (text : String) : List (List Char) :=
  splitSentencesAux text.data false none []

/-- The sentence list of `chunk_text`: split on `[.!?]\s+`, strip each piece,
keep the non-empty ones (`[s.strip() for s in sentences if s.strip()]`). -/
def sentencesOf (text : String) : List String :=
  ((splitSentences text).map (fun l => pyStrip (String.mk l))).filter
    (fun s => s ≠ "")

/-- The word-window fallback loop of `chunk_text` (`chunker.py` lines 29-39),
with explicit fuel: `none` models non-termination of the Python `while`
loop within the given number of iterations. Each iteration takes
`words[start:end]` with `end = min(len(words), start + chunk_size)`, emits
it, stops when `end == len(words)` and otherwise advances
`start = end - overlap`. -/
def wwLoop (words : List String) (chunkSize overlap : Nat) :
    Nat → Nat → List String → Option (List String)
  | 0, _, _ => none
  | fuel + 1, start, chunks =>
    if start < words.length then
      let e := min words.length (start + chunkSize)
      let chunks2 := chunks ++ [joinWords ((words.drop start).take (e - start))]
      if e = words.length then some chunks2
      else wwLoop words chunkSize overlap fuel (e - overlap) chunks2
    else some chunks

/-- The advance of the word-window loop in a non-final iteration:
`start = end - overlap` where `end = start + chunk_size`. -/
def wwAdvance (chunkSize overlap start : Nat) : Nat := start + chunkSize - overlap

/-- The overlap-seeding scan of `chunk_text` (lines 53-61): walk the emitted
chunk's sentences in reverse, prepending each sentence while the collected
word count stays `≤ overlap`, and stop at the first sentence that would
push it past `overlap`. Returns the collected sentences and their word
count. -/
def overlapSeedAux (overlap : Nat) : List String → Nat → List String → List String × Nat
  | [], size, coll => (coll, size)
  | s :: rest, size, coll =>
    if size + countWords s ≤ overlap then
      overlapSeedAux overlap rest (size + countWords s) (s :: coll)
    else (coll, size)

/-- `overlap_sentences` / `overlap_size` computed from the emitted chunk. -/
def overlapSeed (overlap : Nat) (cur : List String) : List String × Nat :=
  overlapSeedAux overlap cur.reverse 0 []

/-- The sentence-accumulation loop of `chunk_text` (lines 41-72). State:
emitted `chunks`, the sentences of the `cur`rent chunk, and its running
word count `curSize`. -/
def sentLoop (chunkSize overlap : Nat) :
    List String → List String → List String → Nat → List String
  | [], chunks, cur, _ => if cur ≠ [] then chunks ++ [joinWords cur] else chunks
  | s :: rest, chunks, cur, curSize =>
    let w := countWords s
    if curSize + w > chunkSize ∧ cur ≠ [] then
      let chunks2 := chunks ++ [joinWords cur]
      let seed := overlapSeed overlap cur
      sentLoop chunkSize overlap rest chunks2 (seed.1 ++ [s]) (seed.2 + w)
    else
      sentLoop chunkSize overlap rest chunks (cur ++ [s]) (curSize + w)

/-- `chunk_text(text, chunk_size, overlap)` from `chunker.py`. The word-window
fallback runs only when no non-empty stripped sentence piece exists; its
fuel `|words| + 1` is enough for every terminating run of the Python loop
(`none` therefore models divergence). -/
def chunk_text (text : String) (chunkSize overlap : Nat) : Option (List String) :=
  let sentences := sentencesOf text
  if sentences = [] then
    let words := pySplit text
    wwLoop words chunkSize overlap (words.length + 1) 0 []
  else
    some (sentLoop chunkSize overlap sentences [] [] 0)

/-- Total word count of a list of sentences. -/
def wordSum (l : List String) : Nat := (l.map countWords).sum

/-- `hasBoundary text` holds when the text contains a sentence boundary in the
sense of the split regex `[.!?]\s+`: a sentence-ending character
immediately followed by a whitespace character. -/
def hasBoundary : List Char → Bool
  | [] => false
  | [_] => false
  | c :: d :: rest => (isSentenceEnd c && d.isWhitespace) || hasBoundary (d :: rest)

/-! ### Vector store (`src/backend/src/infrastructure/external/rag/vectorstore.py`)

Embedding vectors are modelled as lists of rationals; the FAISS
`IndexFlatL2` index is the ordered list of stored vectors and reports
squared L2 distances, ascending. -/

/-- Squared L2 distance between a query and a stored vector, as reported by
`faiss.IndexFlatL2`. -/
def sqDist (q v : List ℚ) : ℚ := (List.zipWith (fun a b => (a - b) ^ 2) q v).sum

/-- Insert a `(position, distance)` pair into a distance-ascending list. -/
def insertByDist (x : Nat × ℚ) : List (Nat × ℚ) → List (Nat × ℚ)
  | [] => [x]
  | y :: l => if x.2 ≤ y.2 then x :: y :: l else y :: insertByDist x l

/-- Sort `(position, distance)` pairs by ascending distance. -/
def sortByDist : List (Nat × ℚ) → List (Nat × ℚ)
  | [] => []
  | x :: l => insertByDist x (sortByDist l)

/-- `index.search(query, k)`: the `k` nearest stored vectors, as
`(position, distance)` pairs in ascending distance order. -/
def faissSearch (index : List (List ℚ)) (qv : List ℚ) (k : Nat) : List (Nat × ℚ) :=
  (sortByDist ((index.map (sqDist qv)).enum)).take k

/-- `similarity = 1.0 / (1.0 + dist) if dist >= 0 else 0.0`
(`vectorstore.py` lines 195 and 203). -/
def simOf (d : ℚ) : ℚ := if d ≥ 0 then 1 / (1 + d) else 0

/-- `search_k = min(top_k * 3, total_vectors) if similarity_threshold > 0 else
min(top_k, total_vectors)` (line 183). -/
def searchK (indexLen topK : Nat) (thr : ℚ) : Nat :=
  if thr > 0 then min (topK * 3) indexLen else min topK indexLen

/-- The candidate list fetched by `search` before filtering. -/
def searchCandidates (index : List (List ℚ)) (qv : List ℚ) (topK : Nat) (thr : ℚ) :
    List (Nat × ℚ) :=
  faissSearch index qv (searchK index.length topK thr)

/-- The threshold-filtering loop of `search` (lines 200-213): keep candidates
whose similarity is at least the threshold, and stop once `top_k` results
have been collected. -/
def searchFilterLoop (topK : Nat) (thr : ℚ) (acc : List (Nat × ℚ × ℚ)) :
    List (Nat × ℚ) → List (Nat × ℚ × ℚ)
  | [] => acc
  | x :: rest =>
    let s := simOf x.2
    if s ≥ thr then
      let acc2 := acc ++ [(x.1, x.2, s)]
      if topK ≤ acc2.length then acc2 else searchFilterLoop topK thr acc2 rest
    else searchFilterLoop topK thr acc rest

/-- `search(index, query_vector, top_k, similarity_threshold)` from
`vectorstore.py`, returning `(position, distance, similarity)` triples. -/
def search (index : List (List ℚ)) (qv : List ℚ) (topK : Nat) (thr : ℚ) :
    List (Nat × ℚ × ℚ) :=
  if index.length = 0 then []
  else
    let cands := searchCandidates index qv topK thr
    if thr = 0 then (cands.take topK).map (fun p => (p.1, p.2, simOf p.2))
    else searchFilterLoop topK thr [] cands

/-! ### RAG index service (`src/backend/src/application/services/rag_index_service.py`)

`query_index` embeds each query and searches the loaded FAISS index. The
embedding call plus the two `search` invocations (threshold 0.1, then the
0.0 fallback when the first returns nothing) are external I/O; they are
modelled by a `searchResults` oracle giving, per query, the two hit-position
lists, with `none` modelling the exception path (`except: continue`,
lines 195-197). -/

/-- One metadata entry as written by `build_repo_index` and read back by
`query_index`. -/
structure ChunkMeta where
  chunk_id : Nat
  text : String
  file_path : String
  chunk_index : Nat
deriving DecidableEq, Repr, Inhabited

/-- The in-range/non-empty/first-seen accumulation over one query's hit list
(`rag_index_service.py` lines 181-193): a hit is used when
`0 <= idx < len(metadata)` and the chunk text is non-blank; a fresh
position appends `metadata[idx]` to the selection. -/
def addHits (metadata : List ChunkMeta) :
    List Int → List Int → List ChunkMeta → List Int × List ChunkMeta
  | [], seen, selected => (seen, selected)
  | idx :: rest, seen, selected =>
    if 0 ≤ idx ∧ idx < (metadata.length : Int) then
      let cm := metadata.getD idx.toNat default
      if pyStrip cm.text = "" then addHits metadata rest seen selected
      else if idx ∈ seen then addHits metadata rest seen selected
      else addHits metadata rest (idx :: seen) (selected ++ [cm])
    else addHits metadata rest seen selected

/-- Per-query step: a `none` oracle result models the `except` path (the query
is skipped); otherwise the 0.1-threshold hits are used unless empty, in
which case the 0.0-threshold fallback hits are used (lines 167-174). -/
def queryStep (metadata : List ChunkMeta) (sr : Option (List Int × List Int))
    (st : List Int × List ChunkMeta) : List Int × List ChunkMeta :=
  match sr with
  | none => st
  | some hits => addHits metadata (if hits.1.isEmpty then hits.2 else hits.1) st.1 st.2

/-- The head-of-index fallback loop (lines 206-211): walk the first
`min(top_k * 2, len(metadata))` entries, keep those with non-blank text,
stop once `top_k` have been collected. -/
def fallbackHeadLoop (topK : Nat) (acc : List ChunkMeta) : List ChunkMeta → List ChunkMeta
  | [] => acc
  | c :: cs =>
    let acc2 := if pyStrip c.text ≠ "" then acc ++ [c] else acc
    if topK ≤ acc2.length then acc2 else fallbackHeadLoop topK acc2 cs

/-- `fallback_chunks` of `query_index`. -/
def fallbackHead (metadata : List ChunkMeta) (topK : Nat) : List ChunkMeta :=
  fallbackHeadLoop topK [] (metadata.take (min (topK * 2) metadata.length))

/-- `RAGIndexService.query_index(index_path, queries, top_k)`. The index and
metadata are already loaded (`metadata`); `searchResults` is the per-query
search oracle described above. Empty metadata raises `ValueError`. -/
def query_index (metadata : List ChunkMeta)
    (searchResults : String → Option (List Int × List Int))
    (queries : List String) (topK : Nat) : Except String (List ChunkMeta) :=
  if metadata.isEmpty then Except.error "No metadata found"
  else
    let st := queries.foldl (fun st q => queryStep metadata (searchResults q) st) ([], [])
    if st.2.isEmpty then
      let fb := fallbackHead metadata topK
      Except.ok (if fb.isEmpty then st.2 else fb)
    else Except.ok st.2

/-- A hit position is used by `query_index` iff it is in range and its chunk
text is non-blank. -/
def validPos (metadata : List ChunkMeta) (idx : Int) : Bool :=
  decide (0 ≤ idx) && decide (idx < (metadata.length : Int)) &&
    (pyStrip (metadata.getD idx.toNat default).text ≠ "")

/-- First-occurrence deduplication (the spec's "distinct chunk positions in
order of first appearance"). -/
def dedupFirstAux (seen : List Int) : List Int → List Int
  | [] => []
  | x :: xs => if x ∈ seen then dedupFirstAux seen xs else x :: dedupFirstAux (x :: seen) xs

/-- First-occurrence deduplication of a position stream. -/
def dedupFirst (l : List Int) : List Int := dedupFirstAux [] l

/-- The hit-position list a query contributes: nothing when the query raised,
otherwise the 0.1-threshold hits unless empty, in which case the
0.0-threshold fallback hits (`rag_index_service.py` lines 158-174). -/
def usedHits (sr : String → Option (List Int × List Int)) (q : String) : List Int :=
  match sr q with
  | none => []
  | some hits => if hits.1.isEmpty then hits.2 else hits.1

/-- The concatenated stream of valid hit positions across the submitted
queries, in retrieval order. -/
def retrievedStream (metadata : List ChunkMeta)
    (searchResults : String → Option (List Int × List Int))
    (queries : List String) : List Int :=
  (queries.map (fun q => (usedHits searchResults q).filter (validPos metadata))).flatten

/-! ### Outline planner (`src/backend/src/application/services/repo_scan_service.py`)

`_parse_outline` first tries `re.search` for a `"chapters"` JSON block and
`json.loads` on it; that library call is embedded as the `jsonChapters`
parameter: `some cs` means the regex matched and strict decoding succeeded,
yielding the chapter records (with the `.get` defaults already applied);
`none` means no match or a `JSONDecodeError`. The Markdown fallback and the
default plan are embedded directly. -/

/-- A documentation chapter (`repo_scan_service.py` lines 14-19). -/
structure Chapter where
  title : String
  description : String
  retrieval_queries : List String
deriving DecidableEq, Repr, Inhabited

/-- Python `line.lstrip("#")`. -/
def lstripHash (s : String) : String := String.mk (s.data.dropWhile (fun c => c = '#'))

/-- Python `line.lstrip("-*")`. -/
def lstripDashStar (s : String) : String :=
  String.mk (s.data.dropWhile (fun c => c = '-' || c = '*'))

/-- One line of the Markdown-fallback parse (`repo_scan_service.py` lines
169-195). State: finished chapters and the chapter currently being built. -/
def mdLine (st : List Chapter × Option Chapter) (rawLine : String) :
    List Chapter × Option Chapter :=
  let line := pyStrip rawLine
  if line = "" then st
  else if sStartsWith line "##" ∧ ¬ sStartsWith line "###" then
    let finished := match st.2 with
      | some c => st.1 ++ [c]
      | none => st.1
    (finished, some ⟨pyStrip (lstripHash line), "", []⟩)
  else
    match st.2 with
    | none => st
    | some c =>
      if sStartsWith line "-" ∨ sStartsWith line "*" then
        let q := pyStrip (lstripDashStar line)
        if q = "" then st
        else (st.1, some { c with retrieval_queries := c.retrieval_queries ++ [q] })
      else if ¬ sStartsWith line "#" then
        (st.1, some { c with description :=
          if c.description ≠ "" then c.description ++ " " ++ line else line })
      else st

/-- The Markdown-fallback outline parse over `text.split("\n")`. -/
def mdFallback (text : String) : List Chapter :=
  let st := (splitLines text).foldl mdLine ([], none)
  match st.2 with
  | some c => st.1 ++ [c]
  | none => st.1

/-- The canned default chapter structure (`repo_scan_service.py` lines
203-229). -/
def defaultChapters : List Chapter :=
  [⟨"Overview", "Repository overview and introduction",
    ["repository structure", "main entry point", "README"]⟩,
   ⟨"Architecture", "System architecture and design",
    ["architecture", "design patterns", "system structure"]⟩,
   ⟨"Core Components", "Main components and modules",
    ["main components", "core modules", "key classes"]⟩,
   ⟨"API Reference", "API endpoints and interfaces",
    ["API routes", "endpoints", "interfaces"]⟩,
   ⟨"Usage Examples", "Usage examples and tutorials",
    ["usage examples", "how to use", "tutorial"]⟩]

/-- `RepoScanService._parse_outline(outline_text)`: the JSON path returns its
chapters unconditionally (even an empty list); otherwise the Markdown
fallback runs, and only when it parses zero chapters is the default
structure substituted. -/
def parse_outline (jsonChapters : Option (List Chapter)) (text : String) : List Chapter :=
  match jsonChapters with
  | some chs => chs
  | none =>
    let chapters := mdFallback text
    if chapters = [] then defaultChapters else chapters

/-! ### Chapter generator (`src/backend/src/application/services/repo_doc_service.py`)

`generate_chapter` calls `query_index` (its outcome is the `retrieved`
parameter), falls back to `random.sample` over the index metadata when that
is empty (the sample is the `randomChunks` parameter, empty when the index
metadata is empty or the fallback itself fails), and then calls the LLM;
the LLM call is the `llm` oracle, `Except.error` modelling a raised
exception. -/

/-- The CONTEXT block built from the retrieved chunks (`repo_doc_service.py`
lines 87-93). -/
def buildContext (chunks : List ChunkMeta) : String :=
  String.intercalate "\n"
    (chunks.map (fun c => "**File:** `" ++ c.file_path ++ "`\n\n" ++ c.text ++ "\n\n---\n"))

/-- `RepoDocService._build_chapter_prompt` (lines 184-217). -/
def buildChapterPrompt (c : Chapter) (context repoName : String)
    (chapterNumber totalChapters : Nat) : String :=
  "Generate comprehensive documentation for the following chapter.\n\nCHAPTER: "
    ++ c.title ++ " (" ++ toString chapterNumber ++ " of " ++ toString totalChapters
    ++ ")\nDESCRIPTION: " ++ c.description ++ "\n\nREPOSITORY: " ++ repoName
    ++ "\n\nCONTEXT (relevant code chunks retrieved from repository):\n" ++ context
    ++ "\n\nTASK: Write a detailed, professional documentation chapter covering:\n- "
    ++ c.description
    ++ "\n- All relevant code examples and explanations\n- Clear structure with subsections\n- Code blocks with proper syntax highlighting\n- Practical examples where applicable\n\nREQUIREMENTS:\n- Use proper markdown formatting\n- Include code examples from the context\n- Be thorough but concise\n- Maintain professional technical writing style\n- Do not invent information not present in the context\n\nOUTPUT: Complete markdown chapter content starting with ## "
    ++ c.title

/-- `RepoDocService.generate_chapter` (lines 30-122). -/
def generate_chapter (c : Chapter) (repoName : String)
    (chapterNumber totalChapters : Nat)
    (retrieved randomChunks : List ChunkMeta)
    (llm : String → Except String String) : String :=
  let chunks := if retrieved.isEmpty then randomChunks else retrieved
  if chunks.isEmpty then
    "## " ++ c.title ++ "\n\n*No relevant content found for this chapter.*\n"
  else
    let prompt := buildChapterPrompt c (buildContext chunks) repoName
      chapterNumber totalChapters
    match llm prompt with
    | Except.ok markdown =>
      if ¬ sStartsWith (pyStrip markdown) "#" then "## " ++ c.title ++ "\n\n" ++ markdown
      else markdown
    | Except.error e =>
      "## " ++ c.title ++ "\n\n*Error generating content: " ++ e ++ "*\n"

/-! ### Corpus fetchers (`github_service.py`, `zip_service.py`) -/

/-- `GitHubService.IGNORED_PATTERNS` (lines 46-58). After unescaping `\.`,
every pattern is a literal string, so `re.search(p, path, re.IGNORECASE)`
is case-insensitive substring containment. -/
def githubIgnoredPatterns : List String :=
  ["node_modules", ".git", "dist", "build", ".next", "venv", "__pycache__",
   ".env", ".DS_Store", ".idea", ".vscode"]

/-- `ZipService.IGNORED_PATTERNS` (lines 39-59). -/
def zipIgnoredPatterns : List String :=
  ["node_modules", ".git", "dist", "build", ".next", "venv", "__pycache__",
   ".env", ".DS_Store", ".idea", ".vscode", ".pytest_cache", ".coverage",
   "htmlcov", ".mypy_cache", ".tox", ".eggs", ".eggs-info", ".cache"]

/-- The fifteen-pattern ignored-path configuration stated by the spec
(spec section 6, "Filter config"). Modelled from the spec for comparison
with the two services' actual pattern lists. -/
def claimedIgnoredPatterns : List String :=
  ["node_modules", ".git", "dist", "build", ".next", "venv", "__pycache__",
   ".env", ".DS_Store", ".idea", ".vscode", ".pytest_cache", ".mypy_cache",
   ".tox", ".cache"]

/-- Case-insensitive substring test (`re.search` on a literal pattern with
`re.IGNORECASE`). -/
def substrCI (pat s : String) : Bool := chInfix (lowerStr pat).data (lowerStr s).data

/-- The ignored-path check as the spec claims it: any of the fifteen
claimed patterns matches, case-insensitively. Modelled from the spec. -/
def claimedShouldIgnorePath (path : String) : Bool :=
  claimedIgnoredPatterns.any (fun p => substrCI p path)

/-- `GitHubService._should_ignore_path` (lines 116-121). -/
def githubShouldIgnorePath (path : String) : Bool :=
  githubIgnoredPatterns.any (fun p => substrCI p path)

/-- `ZipService._should_ignore_path` (lines 66-74): backslashes are normalized
to forward slashes first. -/
def zipShouldIgnorePath (path : String) : Bool :=
  zipIgnoredPatterns.any (fun p =>
    substrCI p (String.mk (path.data.map (fun c => if c = '\\' then '/' else c))))

/-- `settings.ALLOWED_EXTENSIONS` (`config/settings.py` lines 23-27). -/
def allowedExtensions : List String :=
  ["py", "js", "jsx", "ts", "tsx", "java", "kt", "dart", "go", "rs", "cpp", "c",
   "h", "cs", "html", "css", "md", "txt", "json", "yaml", "yml", "pdf", "doc",
   "docx", "xml"]

/-- `path.rsplit(".", 1)[1].lower() if "." in path else ""`. -/
def extOf (path : String) : String :=
  if path.data.any (fun c => c = '.') then
    lowerStr (String.mk ((path.data.reverse.takeWhile (fun c => c ≠ '.')).reverse))
  else ""

/-- `_is_allowed_extension(filename)`: `"." in filename` and
`filename.rsplit(".", 1)[1].lower()` in the whitelist (identical in both
services). -/
def isAllowedExtension (filename : String) : Bool :=
  filename.data.any (fun c => c = '.') && allowedExtensions.any (fun e => e = extOf filename)

/-- One entry of the GitHub recursive tree listing. -/
structure TreeItem where
  itemType : String
  path : String
  size : Nat
  url : String
  sha : String
deriving DecidableEq, Repr

/-- A file admitted by the GitHub filter (`github_service.py` lines 19-26). -/
structure RepoFile where
  path : String
  url : String
  size : Nat
  sha : String
  extension : String
deriving DecidableEq, Repr

/-- The loop of `GitHubService.filter_and_validate_files` (lines 203-253).
Per file: skip non-blobs; ignored-pattern check, extension check and
per-file size cap each `continue`; the file-count cap and the cumulative
byte cap each record the current path as skipped, record a warning and
`break` (the remaining items are not visited). -/
def filterFilesLoop (maxFiles maxTotal maxSingle : Nat) :
    List TreeItem → List RepoFile → List String → List String → Nat →
    List RepoFile × List String × List String
  | [], included, skipped, warnings, _ => (included, skipped, warnings)
  | item :: rest, included, skipped, warnings, totalChars =>
    if item.itemType ≠ "blob" then
      filterFilesLoop maxFiles maxTotal maxSingle rest included skipped warnings totalChars
    else if githubShouldIgnorePath item.path then
      filterFilesLoop maxFiles maxTotal maxSingle rest included
        (skipped ++ [item.path ++ " (ignored pattern)"]) warnings totalChars
    else if ¬ isAllowedExtension item.path then
      filterFilesLoop maxFiles maxTotal maxSingle rest included
        (skipped ++ [item.path ++ " (unsupported extension)"]) warnings totalChars
    else if item.size > maxSingle then
      filterFilesLoop maxFiles maxTotal maxSingle rest included
        (skipped ++ [item.path ++ " (too large: " ++ toString item.size ++ " bytes)"])
        (warnings ++ ["Skipped " ++ item.path ++ ": exceeds max file size ("
          ++ toString maxSingle ++ " bytes)"]) totalChars
    else if maxFiles ≤ included.length then
      (included,
       skipped ++ [item.path ++ " (max files reached: " ++ toString maxFiles ++ ")"],
       warnings ++ ["Reached maximum file limit (" ++ toString maxFiles
         ++ "). Some files were skipped."])
    else if maxTotal < totalChars + item.size then
      (included,
       skipped ++ [item.path ++ " (total size limit reached)"],
       warnings ++ ["Reached total size limit (" ++ toString maxTotal
         ++ " chars). Processed " ++ toString included.length ++ " files with "
         ++ toString totalChars ++ " characters."])
    else
      filterFilesLoop maxFiles maxTotal maxSingle rest
        (included ++ [⟨item.path, item.url, item.size, item.sha, extOf item.path⟩])
        skipped warnings (totalChars + item.size)

/-- `GitHubService.filter_and_validate_files(tree_items, ...)`. -/
def filter_and_validate_files (tree : List TreeItem)
    (maxFiles maxTotal maxSingle : Nat) :
    List RepoFile × List String × List String :=
  filterFilesLoop maxFiles maxTotal maxSingle tree [] [] [] 0

/-- One archive member: its name, its uncompressed size from `getinfo`, and
its `utf-8`/`errors="ignore"` decoded content (that decode never raises,
so the `UnicodeDecodeError` branch of the source is unreachable; `getinfo`
cannot fail for a `namelist()` entry). -/
structure ZipEntry where
  path : String
  fileSize : Nat
  content : String
deriving DecidableEq, Repr

/-- A file admitted by the zip filter (`zip_service.py` lines 16-22). -/
structure ZipFileRec where
  path : String
  content : String
  size : Nat
  extension : String
deriving DecidableEq, Repr

/-- The loop of `ZipService.extract_zip` (lines 106-176). Per entry:
directories and the ignored-pattern/extension checks `continue`; the
file-count cap records the path as skipped plus a warning and `break`s;
then the per-file size cap `continue`s; the cumulative byte cap (checked
against `file_size`) records a skip plus a warning and `break`s; admitted
entries contribute `len(content)` to the running total. -/
def zipExtractLoop (maxFiles maxTotal maxSingle : Nat) :
    List ZipEntry → List ZipFileRec → List String → List String → Nat →
    List ZipFileRec × List String × List String
  | [], included, skipped, warnings, _ => (included, skipped, warnings)
  | entry :: rest, included, skipped, warnings, totalChars =>
    if entry.path.data.getLast? = some '/' then
      zipExtractLoop maxFiles maxTotal maxSingle rest included skipped warnings totalChars
    else if zipShouldIgnorePath entry.path then
      zipExtractLoop maxFiles maxTotal maxSingle rest included
        (skipped ++ [entry.path ++ " (ignored pattern)"]) warnings totalChars
    else if ¬ isAllowedExtension entry.path then
      zipExtractLoop maxFiles maxTotal maxSingle rest included
        (skipped ++ [entry.path ++ " (unsupported extension)"]) warnings totalChars
    else if maxFiles ≤ included.length then
      (included,
       skipped ++ [entry.path ++ " (max files reached: " ++ toString maxFiles ++ ")"],
       warnings ++ ["Reached maximum file limit (" ++ toString maxFiles
         ++ "). Some files were skipped."])
    else if entry.fileSize > maxSingle then
      zipExtractLoop maxFiles maxTotal maxSingle rest included
        (skipped ++ [entry.path ++ " (too large: " ++ toString entry.fileSize ++ " bytes)"])
        (warnings ++ ["Skipped " ++ entry.path ++ ": exceeds max file size ("
          ++ toString maxSingle ++ " bytes)"]) totalChars
    else if maxTotal < totalChars + entry.fileSize then
      (included,
       skipped ++ [entry.path ++ " (total size limit reached)"],
       warnings ++ ["Reached total size limit (" ++ toString maxTotal
         ++ " chars). Processed " ++ toString included.length ++ " files with "
         ++ toString totalChars ++ " characters."])
    else
      zipExtractLoop maxFiles maxTotal maxSingle rest
        (included ++ [⟨entry.path, entry.content, entry.content.length, extOf entry.path⟩])
        skipped warnings (totalChars + entry.content.length)

/-- `ZipService.extract_zip` on a readable archive: run the loop and fail with
a `ValidationError` when nothing was admitted (lines 183-187). -/
def extract_zip (entries : List ZipEntry) (maxFiles maxTotal maxSingle : Nat) :
    Except String (List ZipFileRec × List String × List String) :=
  let r := zipExtractLoop maxFiles maxTotal maxSingle entries [] [] [] 0
  if r.1.isEmpty then Except.error "No supported files found in zip archive."
  else Except.ok r

/-! ### Checkpoint store (`src/backend/src/infrastructure/storage/generation_checkpoint.py`)

The MongoDB collection is modelled as a map from `repo_id` to the stored
document. Dict/list payloads are opaque to `save_checkpoint`, so the model
is polymorphic in a payload type `Doc`. `update_one({"repo_id": rid},
{"$set": data, "$setOnInsert": {"started_at": now}}, upsert=True)` merges
`data` into the existing document, or inserts `data` plus `started_at`. -/

/-- A stored checkpoint document. `Option` on an artifact field means the
field may be absent from the document. -/
structure CheckpointDoc (Doc : Type) where
  repo_id : String
  repo_url : Option String
  docType : String
  status : String
  progress : Int
  current_step : String
  completed_steps : Int
  total_steps : Int
  last_updated : Nat
  error : Option String
  user_id : Option String
  ingestion_result : Option Doc
  repo_files : Option (List Doc)
  chapters : Option (List Doc)
  index_path : Option String
  index_metadata : Option Doc
  generated_markdown : Option String
  pdf_path : Option String
  pdf_url : Option String
  started_at : Nat
deriving DecidableEq, Repr

/-- The arguments of `save_checkpoint` (`generation_checkpoint.py` lines
87-106), with the source's defaults. -/
structure SaveArgs (Doc : Type) where
  status : String
  progress : Int
  current_step : String
  repo_url : Option String := none
  docType : String := "github_repo"
  completed_steps : Int := 0
  total_steps : Int := 0
  ingestion_result : Option Doc := none
  repo_files : Option (List Doc) := none
  chapters : Option (List Doc) := none
  index_path : Option String := none
  index_metadata : Option Doc := none
  generated_markdown : Option String := none
  pdf_path : Option String := none
  pdf_url : Option String := none
  error : Option String := none
  user_id : Option String := none
deriving DecidableEq, Repr

/-- The checkpoint collection, keyed by `repo_id`. -/
def Store (Doc : Type) : Type := String → Option (CheckpointDoc Doc)

/-- `$set` semantics for an artifact field: the argument is written into the
document only when it is not `None` (lines 135-151); otherwise the stored
value is kept. -/
def setField {α : Type} (arg old : Option α) : Option α :=
  match arg with
  | some v => some v
  | none => old

/-- `CheckpointService.save_checkpoint(repo_id, ...)` (lines 87-168): an
upsert on `repo_id`. The always-written fields (`repo_url`, `type`,
`status`, `progress`, `current_step`, `completed_steps`, `total_steps`,
`last_updated`, `error`, `user_id`) overwrite unconditionally — including
with `None`; the artifact fields are written only when provided;
`started_at` is written only on insert. -/
def save_checkpoint {Doc : Type} (store : Store Doc) (repoId : String)
    (a : SaveArgs Doc) (now : Nat) : Store Doc :=
  fun rid =>
    if rid = repoId then
      match store repoId with
      | some d => some
        { repo_id := repoId
          repo_url := a.repo_url
          docType := a.docType
          status := a.status
          progress := a.progress
          current_step := a.current_step
          completed_steps := a.completed_steps
          total_steps := a.total_steps
          last_updated := now
          error := a.error
          user_id := a.user_id
          ingestion_result := setField a.ingestion_result d.ingestion_result
          repo_files := setField a.repo_files d.repo_files
          chapters := setField a.chapters d.chapters
          index_path := setField a.index_path d.index_path
          index_metadata := setField a.index_metadata d.index_metadata
          generated_markdown := setField a.generated_markdown d.generated_markdown
          pdf_path := setField a.pdf_path d.pdf_path
          pdf_url := setField a.pdf_url d.pdf_url
          started_at := d.started_at }
      | none => some
        { repo_id := repoId
          repo_url := a.repo_url
          docType := a.docType
          status := a.status
          progress := a.progress
          current_step := a.current_step
          completed_steps := a.completed_steps
          total_steps := a.total_steps
          last_updated := now
          error := a.error
          user_id := a.user_id
          ingestion_result := a.ingestion_result
          repo_files := a.repo_files
          chapters := a.chapters
          index_path := a.index_path
          index_metadata := a.index_metadata
          generated_markdown := a.generated_markdown
          pdf_path := a.pdf_path
          pdf_url := a.pdf_url
          started_at := now }
    else store rid

/-- `CheckpointService.get_checkpoint(repo_id)` (lines 170-184). -/
def get_checkpoint {Doc : Type} (store : Store Doc) (rid : String) :
    Option (CheckpointDoc Doc) :=
  store rid

/-! ### Orchestrator resume (`src/backend/src/application/services/repo_orchestrator_service.py`)

`generate_documentation` (lines 104-377) is straight-line: it always starts
by reporting `pending`, then ingests the repository again (lines 133-210),
then scans, indexes, generates and merges. `resume_generation` (lines
379-414) loads the checkpoint, rejects a missing or completed one, and then
calls `generate_documentation` from the top — the checkpoint's stored
artifacts are not used to skip any phase (the `if checkpoint.repo_files:`
block at lines 408-411 is a `pass`). -/

/-- What a successful `resume_generation` call does: restart the full
pipeline via `generate_documentation(repo_id, checkpoint.repo_url or "",
title)`. -/
inductive ResumePlan where
  | restartFull (repoUrl : String)
deriving DecidableEq, Repr

/-- The ordered phase statuses reported by one full run of
`generate_documentation`, from its first status report to completion. -/
def generateDocumentationPhases : List String :=
  ["pending", "ingesting", "scanning", "indexing", "generating", "merging",
   "completed"]

/-- The phases executed by a resume plan: `restartFull` runs
`generate_documentation` from the top. -/
def planPhases : ResumePlan → List String
  | ResumePlan.restartFull _ => generateDocumentationPhases

/-- `RepoOrchestratorService.resume_generation(repo_id)` up to the point where
it re-enters the pipeline: `ValidationError` when no checkpoint exists or
the checkpoint is completed, otherwise a full restart. -/
def resume_generation {Doc : Type} (checkpoint : Option (CheckpointDoc Doc)) :
    Except String ResumePlan :=
  match checkpoint with
  | none => Except.error "No checkpoint found for repo_id"
  | some cp =>
    if cp.status = "completed" then
      Except.error "Generation already completed for repo_id"
    else
      Except.ok (ResumePlan.restartFull (cp.repo_url.getD ""))

/-! ## Theorems -/

/-! ### String helper lemmas -/

theorem chStarts_iff (pre l : List Char) : chStarts pre l = true ↔ pre <+: l := by
  induction pre generalizing l with
  | nil => simp [chStarts]
  | cons p ps ih =>
    cases l with
    | nil => simp [chStarts]
    | cons c cs => simp [chStarts, ih, List.cons_prefix_cons]

theorem chInfix_iff (pat l : List Char) : chInfix pat l = true ↔ pat <:+: l := by
  induction l with
  | nil => simp [chInfix, List.isEmpty_iff]
  | cons c cs ih => simp [chInfix, chStarts_iff, ih, List.infix_cons_iff]

/-! ### C1: outline parsing -/

set_option maxRecDepth 8000 in
/-- C1 counterexample: on the LLM output `"## Setup"` (no JSON block, one
markdown heading) `_parse_outline` returns exactly one chapter with zero
retrieval queries: the chapter count is outside `5..12`, yet the default
plan is not substituted, contradicting the claim as stated. -/
theorem c1_counterexample :
    parse_outline none "## Setup" = [⟨"Setup", "", []⟩] ∧
    (parse_outline none "## Setup").length = 1 ∧
    parse_outline none "## Setup" ≠ defaultChapters ∧
    ∃ c ∈ parse_outline none "## Setup", c.retrieval_queries = [] := by
  refine ⟨by decide, by decide, by decide, ⟨"Setup", "", []⟩, by decide, rfl⟩

/-- C1 (amended): `_parse_outline` substitutes the deterministic five-chapter
default plan (Overview, Architecture, Core Components, API Reference,
Usage Examples) exactly when the JSON path yields nothing and the markdown
fallback parses zero chapters. A decoded JSON chapter list or a non-empty
markdown parse is returned unchanged — no `5 ≤ |chapters| ≤ 12` bound is
enforced and chapters may have zero retrieval queries. The default plan
itself has five chapters, each with at least one retrieval query. -/
theorem c1_parse_outline_amended (jsonChapters : Option (List Chapter)) (text : String) :
    (jsonChapters = none → mdFallback text = [] →
      parse_outline jsonChapters text = defaultChapters) ∧
    (∀ chs, jsonChapters = some chs → parse_outline jsonChapters text = chs) ∧
    (jsonChapters = none → mdFallback text ≠ [] →
      parse_outline jsonChapters text = mdFallback text) ∧
    defaultChapters.length = 5 ∧
    (∀ c ∈ defaultChapters, c.retrieval_queries ≠ []) := by
  refine ⟨?_, ?_, ?_, rfl, by decide⟩
  · intro hj hmd
    subst hj
    simp [parse_outline, hmd]
  · intro chs hj
    subst hj
    rfl
  · intro hj hmd
    subst hj
    simp [parse_outline, hmd]

/-- C1 amended-claim witness: the empty LLM output parses to zero chapters
and the five-chapter default plan is substituted. -/
theorem c1_amended_witness :
    parse_outline none "" = defaultChapters ∧ defaultChapters.length = 5 :=
  ⟨(c1_parse_outline_amended none "").1 rfl (by decide),
   (c1_parse_outline_amended none "").2.2.2.1⟩

/-! ### C5: chapter generation error stub and heading -/

/-- C5 counterexample: the error stub returned by `generate_chapter` carries a
trailing newline, so it is not equal to the claimed stub string
`"## <title>\n\n*Error generating content: <message>*"`. -/
theorem c5_counterexample :
    generate_chapter ⟨"T", "d", ["q"]⟩ "repo" 1 1 [⟨0, "text", "f.py", 0⟩] []
        (fun _ => Except.error "boom")
      = "## T\n\n*Error generating content: boom*\n" ∧
    "## T\n\n*Error generating content: boom*\n"
      ≠ "## T\n\n*Error generating content: boom*" := by
  exact ⟨rfl, by decide⟩

/-- C5 (amended): when the LLM call raises, `generate_chapter` returns the
stub `"## <title>\n\n*Error generating content: <message>*\n"` (with a
trailing newline) instead of propagating the error; when the LLM returns
markdown whose stripped form does not start with `"#"`, `"## <title>"` is
prepended; and in every case the output either starts with the literal
`"## "` or its stripped form starts with `"#"`. -/
theorem c5_generate_chapter_amended (c : Chapter) (repoName : String)
    (n total : Nat) (retrieved randomChunks : List ChunkMeta)
    (llm : String → Except String String) :
    (∀ e, (if retrieved.isEmpty then randomChunks else retrieved) ≠ [] →
      llm (buildChapterPrompt c
          (buildContext (if retrieved.isEmpty then randomChunks else retrieved))
          repoName n total) = Except.error e →
      generate_chapter c repoName n total retrieved randomChunks llm
        = "## " ++ c.title ++ "\n\n*Error generating content: " ++ e ++ "*\n") ∧
    (∀ md, (if retrieved.isEmpty then randomChunks else retrieved) ≠ [] →
      llm (buildChapterPrompt c
          (buildContext (if retrieved.isEmpty then randomChunks else retrieved))
          repoName n total) = Except.ok md →
      sStartsWith (pyStrip md) "#" = false →
      generate_chapter c repoName n total retrieved randomChunks llm
        = "## " ++ c.title ++ "\n\n" ++ md) ∧
    ((∃ rest, generate_chapter c repoName n total retrieved randomChunks llm
        = "## " ++ rest) ∨
      sStartsWith
        (pyStrip (generate_chapter c repoName n total retrieved randomChunks llm))
        "#" = true) := by
  refine ⟨?_, ?_, ?_⟩
  · intro e hne hllm
    simp only [List.isEmpty_iff] at hne hllm
    simp only [generate_chapter, List.isEmpty_iff]
    rw [if_neg hne, hllm]
    try simp [String.append_assoc]
  · intro md hne hllm hhead
    simp only [List.isEmpty_iff] at hne hllm
    simp only [generate_chapter, List.isEmpty_iff]
    rw [if_neg hne, hllm]
    try simp [hhead, String.append_assoc]
  · by_cases hne : (if retrieved = [] then randomChunks else retrieved) = []
    · left
      refine ⟨c.title ++ "\n\n*No relevant content found for this chapter.*\n", ?_⟩
      simp only [generate_chapter, List.isEmpty_iff]
      rw [if_pos hne]
      try simp [String.append_assoc]
    · cases hllm : llm (buildChapterPrompt c
          (buildContext (if retrieved = [] then randomChunks else retrieved))
          repoName n total) with
      | error e =>
        left
        refine ⟨c.title ++ "\n\n*Error generating content: " ++ e ++ "*\n", ?_⟩
        simp only [generate_chapter, List.isEmpty_iff]
        rw [if_neg hne, hllm]
        try simp [String.append_assoc]
      | ok md =>
        by_cases hhead : sStartsWith (pyStrip md) "#" = true
        · right
          simp only [generate_chapter, List.isEmpty_iff]
          rw [if_neg hne, hllm]
          try simp [hhead]
        · left
          refine ⟨c.title ++ "\n\n" ++ md, ?_⟩
          simp only [Bool.not_eq_true] at hhead
          simp only [generate_chapter, List.isEmpty_iff]
          rw [if_neg hne, hllm]
          try simp [hhead, String.append_assoc]

/-- C5 amended-claim witness: a failing LLM call on a one-chunk retrieval
produces the newline-terminated stub. -/
theorem c5_amended_witness :
    generate_chapter ⟨"A", "", []⟩ "r" 1 1 [⟨0, "t", "f", 0⟩] []
        (fun _ => Except.error "x")
      = "## " ++ "A" ++ "\n\n*Error generating content: " ++ "x" ++ "*\n" :=
  (c5_generate_chapter_amended ⟨"A", "", []⟩ "r" 1 1 [⟨0, "t", "f", 0⟩] []
    (fun _ => Except.error "x")).1 "x" (by decide) rfl

/-! ### C6: resume semantics -/

/-- C6 counterexample: a checkpoint in status `"generating"` whose
prerequisite artifacts (downloaded files, chapters, index path) are all
present is resumed by restarting the whole pipeline — the plan's first
phase is `"pending"` and `"ingesting"` is re-executed — not by continuing
at the earliest non-completed phase. -/
theorem c6_counterexample :
    @resume_generation Unit (some
      { repo_id := "r", repo_url := some "u", docType := "github_repo",
        status := "generating", progress := 60,
        current_step := "Generating chapter 2/5...",
        completed_steps := 5, total_steps := 8, last_updated := 100,
        error := none, user_id := none, ingestion_result := some (),
        repo_files := some [()], chapters := some [()],
        index_path := some "idx", index_metadata := some (),
        generated_markdown := none, pdf_path := none, pdf_url := none,
        started_at := 1 })
      = Except.ok (ResumePlan.restartFull "u") ∧
    (planPhases (ResumePlan.restartFull "u")).head? = some "pending" ∧
    "ingesting" ∈ planPhases (ResumePlan.restartFull "u") ∧
    (planPhases (ResumePlan.restartFull "u")).head? ≠ some "generating" := by
  refine ⟨rfl, rfl, by decide, by decide⟩

/-- C6 (amended): `resume_generation` fails with a validation error when no
checkpoint exists for the repo id or when the checkpoint status is
`"completed"`; otherwise it restarts the full pipeline from the beginning
(the complete `generate_documentation` phase sequence, starting with
`"pending"` and re-ingestion), regardless of which artifacts the
checkpoint holds. -/
theorem c6_resume_amended {Doc : Type} (checkpoint : Option (CheckpointDoc Doc)) :
    (checkpoint = none → ∃ msg, resume_generation checkpoint = Except.error msg) ∧
    (∀ cp, checkpoint = some cp → cp.status = "completed" →
      ∃ msg, resume_generation checkpoint = Except.error msg) ∧
    (∀ cp, checkpoint = some cp → cp.status ≠ "completed" →
      resume_generation checkpoint
        = Except.ok (ResumePlan.restartFull (cp.repo_url.getD "")) ∧
      planPhases (ResumePlan.restartFull (cp.repo_url.getD ""))
        = generateDocumentationPhases) := by
  refine ⟨?_, ?_, ?_⟩
  · intro h
    subst h
    exact ⟨"No checkpoint found for repo_id", rfl⟩
  · intro cp h hstatus
    subst h
    refine ⟨"Generation already completed for repo_id", ?_⟩
    simp [resume_generation, hstatus]
  · intro cp h hstatus
    subst h
    exact ⟨by simp [resume_generation, hstatus], rfl⟩

/-- C6 amended-claim witness: an `"indexing"` checkpoint resumes as a full
restart. -/
theorem c6_amended_witness :
    @resume_generation Unit (some
      { repo_id := "r", repo_url := some "u", docType := "github_repo",
        status := "indexing", progress := 40, current_step := "Building index",
        completed_steps := 2, total_steps := 8, last_updated := 50,
        error := none, user_id := none, ingestion_result := some (),
        repo_files := some [()], chapters := none, index_path := none,
        index_metadata := none, generated_markdown := none, pdf_path := none,
        pdf_url := none, started_at := 1 })
      = Except.ok (ResumePlan.restartFull "u") :=
  ((c6_resume_amended _).2.2 _ rfl (by decide)).1

/-! ### C8: ignored-path patterns -/

/-- C8 counterexample: `.tox/app.py` matches the claimed fifteen-pattern
config but is not excluded in the remote-catalog mode (whose list lacks
`\.tox`), while `htmlcov/index.html` does not match the claimed config yet
is excluded in the archive mode (whose list adds `htmlcov`). -/
theorem c8_counterexample :
    claimedShouldIgnorePath ".tox/app.py" = true ∧
    githubShouldIgnorePath ".tox/app.py" = false ∧
    claimedShouldIgnorePath "htmlcov/index.html" = false ∧
    zipShouldIgnorePath "htmlcov/index.html" = true := by
  refine ⟨by decide, by decide, by decide, by decide⟩

/-- C8 (amended): the remote-catalog mode uses an eleven-pattern list (the
claimed fifteen minus `\.pytest_cache`, `\.mypy_cache`, `\.tox`,
`\.cache`) and the archive mode a nineteen-pattern list (the claimed
fifteen plus `\.coverage`, `htmlcov`, `\.eggs`, `\.eggs-info`); in each
mode a path is excluded iff some pattern of that mode's own list matches
it case-insensitively as a substring (archive paths first have backslashes
normalized to forward slashes), and the remote list is a subset of both
the archive list and the claimed list. -/
theorem c8_ignore_amended (path : String) :
    (githubShouldIgnorePath path = true ↔
      ∃ p ∈ githubIgnoredPatterns, (lowerStr p).data <:+: (lowerStr path).data) ∧
    (zipShouldIgnorePath path = true ↔
      ∃ p ∈ zipIgnoredPatterns,
        (lowerStr p).data <:+:
          (lowerStr (String.mk
            (path.data.map (fun c => if c = '\\' then '/' else c)))).data) ∧
    githubIgnoredPatterns.length = 11 ∧
    zipIgnoredPatterns.length = 19 ∧
    (∀ p ∈ githubIgnoredPatterns, p ∈ zipIgnoredPatterns) ∧
    (∀ p ∈ githubIgnoredPatterns, p ∈ claimedIgnoredPatterns) := by
  refine ⟨?_, ?_, rfl, rfl, by decide, by decide⟩
  · simp [githubShouldIgnorePath, substrCI, List.any_eq_true, chInfix_iff]
  · simp [zipShouldIgnorePath, substrCI, List.any_eq_true, chInfix_iff]

/-- C8 amended-claim witness: `a/node_modules/b.js` is excluded in the
remote-catalog mode because the `node_modules` pattern matches it. -/
theorem c8_amended_witness :
    ∃ p ∈ githubIgnoredPatterns,
      (lowerStr p).data <:+: (lowerStr "a/node_modules/b.js").data :=
  (c8_ignore_amended "a/node_modules/b.js").1.mp (by decide)

/-! ### C7: corpus filtering order and budgets -/

theorem filterFilesLoop_caps (maxF maxT maxS : Nat) (items : List TreeItem) :
    ∀ (included : List RepoFile) (skipped warnings : List String) (totalChars : Nat),
      included.length ≤ maxF →
      (included.map RepoFile.size).sum = totalChars →
      totalChars ≤ maxT →
      (filterFilesLoop maxF maxT maxS items included skipped warnings totalChars).1.length
          ≤ maxF ∧
      ((filterFilesLoop maxF maxT maxS items included skipped warnings totalChars).1.map
          RepoFile.size).sum ≤ maxT := by
  induction items with
  | nil =>
    intro included skipped warnings totalChars hlen hsum htot
    simp only [filterFilesLoop]
    omega
  | cons item rest ih =>
    intro included skipped warnings totalChars hlen hsum htot
    simp only [filterFilesLoop]
    split_ifs <;>
      try exact ih _ _ _ _ hlen hsum htot
    all_goals try (refine ⟨?_, ?_⟩ <;> dsimp only <;> omega)
    all_goals refine ih _ _ _ _ ?_ ?_ ?_
    · simp only [List.length_append, List.length_cons, List.length_nil]
      omega
    · simp [hsum]
    · omega

theorem zipExtractLoop_caps (maxF maxT maxS : Nat) (entries : List ZipEntry)
    (hc : ∀ e ∈ entries, e.content.length ≤ e.fileSize) :
    ∀ (included : List ZipFileRec) (skipped warnings : List String) (totalChars : Nat),
      included.length ≤ maxF →
      (included.map ZipFileRec.size).sum ≤ totalChars →
      totalChars ≤ maxT →
      (zipExtractLoop maxF maxT maxS entries included skipped warnings totalChars).1.length
          ≤ maxF ∧
      ((zipExtractLoop maxF maxT maxS entries included skipped warnings totalChars).1.map
          ZipFileRec.size).sum ≤ maxT := by
  induction entries with
  | nil =>
    intro included skipped warnings totalChars hlen hsum htot
    simp only [zipExtractLoop]
    omega
  | cons entry rest ih =>
    intro included skipped warnings totalChars hlen hsum htot
    have hce : entry.content.length ≤ entry.fileSize := hc entry (by simp)
    have hrest : ∀ e ∈ rest, e.content.length ≤ e.fileSize := by
      intro e he
      exact hc e (by simp [he])
    simp only [zipExtractLoop]
    split_ifs <;>
      try exact ih hrest _ _ _ _ hlen hsum htot
    all_goals try (refine ⟨?_, ?_⟩ <;> dsimp only <;> omega)
    all_goals refine ih hrest _ _ _ _ ?_ ?_ ?_
    · simp only [List.length_append, List.length_cons, List.length_nil]
      omega
    · dsimp only
      simp only [List.map_append, List.sum_append, List.map_cons, List.sum_cons,
        List.map_nil, List.sum_nil]
      omega
    · omega

/-- C7 counterexample: with `max_files = 0` and two admissible blobs, only the
first (tripping) file is recorded as skipped — the second is silently
dropped, not recorded — and in the archive mode an oversized entry hitting
a full file-count cap is reported as `"max files reached"`, showing the
count cap is checked before the per-file size cap there, contrary to the
claimed per-file order. -/
theorem c7_counterexample :
    filter_and_validate_files
        [⟨"blob", "a.py", 5, "u1", "s1"⟩, ⟨"blob", "b.py", 5, "u2", "s2"⟩] 0 100 100
      = ([], ["a.py (max files reached: 0)"],
         ["Reached maximum file limit (0). Some files were skipped."]) ∧
    (filter_and_validate_files
        [⟨"blob", "a.py", 5, "u1", "s1"⟩, ⟨"blob", "b.py", 5, "u2", "s2"⟩]
        0 100 100).2.1.length = 1 ∧
    zipExtractLoop 0 1000 100 [⟨"a.py", 500, "xxx"⟩] [] [] [] 0
      = ([], ["a.py (max files reached: 0)"],
         ["Reached maximum file limit (0). Some files were skipped."]) := by
  refine ⟨rfl, rfl, rfl⟩

/-- C7 (amended): the remote mode filters each file in the order ignored-path
→ extension → per-file size → file-count cap → byte cap, while the archive
mode checks the file-count cap before the per-file size cap; when a
cumulative cap trips, only the tripping file is recorded as skipped (with
a warning) and iteration stops, the remaining files being silently
dropped; in both modes the admitted set satisfies `|included| ≤ max_files`
and the admitted sizes sum to at most `max_total` (for archives, given
that decoded length does not exceed the stored file size). -/
theorem c7_filter_caps_amended (tree : List TreeItem) (entries : List ZipEntry)
    (maxF maxT maxS : Nat)
    (hc : ∀ e ∈ entries, e.content.length ≤ e.fileSize) :
    (filter_and_validate_files tree maxF maxT maxS).1.length ≤ maxF ∧
    ((filter_and_validate_files tree maxF maxT maxS).1.map RepoFile.size).sum ≤ maxT ∧
    (zipExtractLoop maxF maxT maxS entries [] [] [] 0).1.length ≤ maxF ∧
    ((zipExtractLoop maxF maxT maxS entries [] [] [] 0).1.map ZipFileRec.size).sum
      ≤ maxT := by
  have hg := filterFilesLoop_caps maxF maxT maxS tree [] [] [] 0
    (by simp) (by simp) (by simp)
  have hz := zipExtractLoop_caps maxF maxT maxS entries hc [] [] [] 0
    (by simp) (by simp) (by simp)
  exact ⟨hg.1, hg.2, hz.1, hz.2⟩

/-- C7 amended-claim witness: the budgets hold on a small concrete corpus. -/
theorem c7_amended_witness :
    (filter_and_validate_files [⟨"blob", "a.py", 5, "u1", "s1"⟩] 10 100 100).1.length
        ≤ 10 ∧
    ((filter_and_validate_files [⟨"blob", "a.py", 5, "u1", "s1"⟩] 10 100
        100).1.map RepoFile.size).sum ≤ 100 ∧
    (zipExtractLoop 10 100 100 [⟨"b.py", 3, "abc"⟩] [] [] [] 0).1.length ≤ 10 ∧
    ((zipExtractLoop 10 100 100 [⟨"b.py", 3, "abc"⟩] [] [] [] 0).1.map
        ZipFileRec.size).sum ≤ 100 :=
  c7_filter_caps_amended [⟨"blob", "a.py", 5, "u1", "s1"⟩] [⟨"b.py", 3, "abc"⟩]
    10 100 100 (by decide)

/-! ### C9: checkpoint save frame -/

/-- C9: `save_checkpoint` leaves a previously persisted artifact field
unchanged whenever the corresponding argument is `None` (only provided
fields are written), sets `started_at` only when the checkpoint is first
inserted, never modifies `started_at` on later saves for the same
`repo_id`, and leaves other repo ids untouched. -/
theorem c9_save_checkpoint_frame {Doc : Type} (store : Store Doc) (rid : String)
    (a : SaveArgs Doc) (now : Nat) :
    (∀ d, store rid = some d →
      ∃ d2, save_checkpoint store rid a now rid = some d2 ∧
        (a.ingestion_result = none → d2.ingestion_result = d.ingestion_result) ∧
        (a.repo_files = none → d2.repo_files = d.repo_files) ∧
        (a.chapters = none → d2.chapters = d.chapters) ∧
        (a.index_path = none → d2.index_path = d.index_path) ∧
        (a.index_metadata = none → d2.index_metadata = d.index_metadata) ∧
        (a.generated_markdown = none → d2.generated_markdown = d.generated_markdown) ∧
        (a.pdf_path = none → d2.pdf_path = d.pdf_path) ∧
        (a.pdf_url = none → d2.pdf_url = d.pdf_url) ∧
        d2.started_at = d.started_at) ∧
    (store rid = none →
      ∃ d2, save_checkpoint store rid a now rid = some d2 ∧ d2.started_at = now) ∧
    (∀ other, other ≠ rid → save_checkpoint store rid a now other = store other) := by
  refine ⟨?_, ?_, ?_⟩
  · intro d hd
    simp only [save_checkpoint, if_pos rfl, hd]
    refine ⟨_, rfl, ?_, ?_, ?_, ?_, ?_, ?_, ?_, ?_, rfl⟩ <;>
      (intro h; simp [setField, h])
  · intro h
    simp only [save_checkpoint, if_pos rfl, h]
    exact ⟨_, rfl, rfl⟩
  · intro other hne
    simp [save_checkpoint, hne]

/-- C9 witness: a second save with all artifact arguments absent keeps the
stored ingestion summary and the original `started_at`. -/
theorem c9_frame_witness :
    ∃ d2,
      save_checkpoint
        (fun r => if r = "r" then some
          { repo_id := "r", repo_url := some "u", docType := "github_repo",
            status := "ingesting", progress := 5, current_step := "Ingesting",
            completed_steps := 0, total_steps := 0, last_updated := 3,
            error := none, user_id := none, ingestion_result := some (),
            repo_files := none, chapters := none, index_path := none,
            index_metadata := none, generated_markdown := none, pdf_path := none,
            pdf_url := none, started_at := 7 }
          else none)
        "r" { status := "scanning", progress := 30, current_step := "Scanning" }
        99 "r" = some d2 ∧
      d2.ingestion_result = some () ∧ d2.started_at = 7 := by
  obtain ⟨d2, hsave, hing, _, _, _, _, _, _, _, hstart⟩ :=
    (c9_save_checkpoint_frame
      (fun r => if r = "r" then some
        { repo_id := "r", repo_url := some "u", docType := "github_repo",
          status := "ingesting", progress := 5, current_step := "Ingesting",
          completed_steps := 0, total_steps := 0, last_updated := 3,
          error := none, user_id := none, ingestion_result := some (),
          repo_files := none, chapters := none, index_path := none,
          index_metadata := none, generated_markdown := none, pdf_path := none,
          pdf_url := none, started_at := 7 }
        else none)
      "r" { status := "scanning", progress := 30, current_step := "Scanning" }
      99).1 _ rfl
  exact ⟨d2, hsave, by rw [hing rfl], by rw [hstart]⟩

/-! ### C10: chunker fallback termination -/

theorem wwLoop_isSome (words : List String) (chunkSize overlap : Nat)
    (h : overlap < chunkSize) :
    ∀ (fuel start : Nat) (chunks : List String),
      words.length - start < fuel →
      (wwLoop words chunkSize overlap fuel start chunks).isSome = true := by
  intro fuel
  induction fuel with
  | zero =>
    intro start chunks hf
    omega
  | succ fuel ih =>
    intro start chunks hf
    simp only [wwLoop]
    by_cases hstart : start < words.length
    · simp only [if_pos hstart]
      by_cases hend : min words.length (start + chunkSize) = words.length
      · simp [hend]
      · simp only [if_neg hend]
        apply ih
        omega
    · simp [hstart]

/-- C10: under the precondition `overlap < chunk_size`, `chunk_text`
terminates on every input (the word-window fallback finishes within
`|words| + 1` iterations); the fallback loop's advance
`start = end - overlap = start + chunk_size - overlap` strictly increases
the window start exactly when `overlap < chunk_size`; and without the
precondition the loop never terminates on word lists longer than
`chunk_size` (the advance makes no progress). -/
theorem c10_chunk_text_termination (text : String) (chunkSize overlap : Nat) :
    (overlap < chunkSize → (chunk_text text chunkSize overlap).isSome = true) ∧
    (∀ start : Nat, overlap < chunkSize ↔ start < wwAdvance chunkSize overlap start) ∧
    (∀ (words chunks : List String) (fuel start : Nat),
      start + chunkSize < words.length →
      wwLoop words chunkSize overlap (fuel + 1) start chunks
        = wwLoop words chunkSize overlap fuel (wwAdvance chunkSize overlap start)
            (chunks ++ [joinWords ((words.drop start).take chunkSize)])) ∧
    (∀ words : List String, chunkSize ≤ overlap → chunkSize < words.length →
      ∀ (fuel : Nat) (chunks : List String),
        wwLoop words chunkSize overlap fuel 0 chunks = none) := by
  refine ⟨?_, ?_, ?_, ?_⟩
  · intro h
    by_cases hs : sentencesOf text = []
    · simp only [chunk_text, if_pos hs]
      exact wwLoop_isSome (pySplit text) chunkSize overlap h _ 0 [] (by omega)
    · simp [chunk_text, hs]
  · intro start
    simp only [wwAdvance]
    omega
  · intro words chunks fuel start hlt
    have hstart : start < words.length := by omega
    have hmin : min words.length (start + chunkSize) = start + chunkSize := by omega
    have hend : min words.length (start + chunkSize) ≠ words.length := by omega
    simp only [wwLoop, if_pos hstart, hmin, if_neg (by omega : ¬ start + chunkSize = words.length)]
    have hadv : start + chunkSize - overlap = wwAdvance chunkSize overlap start := rfl
    rw [hadv]
    have htake : start + chunkSize - start = chunkSize := by omega
    rw [htake]
  · intro words hle hlen
    intro fuel
    induction fuel with
    | zero =>
      intro chunks
      rfl
    | succ fuel ih =>
      intro chunks
      have hstart : 0 < words.length := by omega
      have hmin : min words.length (0 + chunkSize) = chunkSize := by omega
      have hend : ¬ min words.length (0 + chunkSize) = words.length := by omega
      simp only [wwLoop, if_pos hstart, hmin]
      rw [if_neg (show ¬ chunkSize = words.length by omega)]
      have hz : chunkSize - overlap = 0 := by omega
      try rw [hz]
      exact ih _

/-- C10 witness: with `overlap = 1 < 3 = chunk_size` the fallback input
`"! ! ! ! "` chunks successfully and the advance moves the start forward;
with `overlap = chunk_size = 3` the same four-word fallback input loops
forever. -/
theorem c10_witness :
    (chunk_text "! ! ! ! " 3 1).isSome = true ∧
    0 < wwAdvance 3 1 0 ∧
    wwLoop ["!", "!", "!", "!"] 3 3 5 0 [] = none := by
  refine ⟨(c10_chunk_text_termination "! ! ! ! " 3 1).1 (by omega),
    ((c10_chunk_text_termination "! ! ! ! " 3 1).2.1 0).mp (by omega),
    (c10_chunk_text_termination "! ! ! ! " 3 3).2.2.2 ["!", "!", "!", "!"]
      (by omega) (by decide) 5 []⟩

/-! ### C4: chunker overlap seeding and fallback condition -/

theorem wordSum_cons (a : String) (l : List String) :
    wordSum (a :: l) = countWords a + wordSum l := by
  simp [wordSum]

theorem wordSum_append (l1 l2 : List String) :
    wordSum (l1 ++ l2) = wordSum l1 + wordSum l2 := by
  simp [wordSum]

theorem wordSum_reverse (l : List String) : wordSum l.reverse = wordSum l := by
  simp [wordSum, List.sum_reverse]

theorem overlapSeedAux_spec (ov : Nat) :
    ∀ (rl : List String) (size : Nat) (coll : List String), size ≤ ov →
      ∃ k, k ≤ rl.length ∧
        (overlapSeedAux ov rl size coll).1 = (rl.take k).reverse ++ coll ∧
        (overlapSeedAux ov rl size coll).2 = size + wordSum (rl.take k) ∧
        size + wordSum (rl.take k) ≤ ov ∧
        (k < rl.length → ov < size + wordSum (rl.take (k + 1))) := by
  intro rl
  induction rl with
  | nil =>
    intro size coll hsz
    refine ⟨0, Nat.le_refl 0, by simp [overlapSeedAux], by simp [overlapSeedAux, wordSum],
      by simpa [wordSum] using hsz, fun h => absurd h (by simp)⟩
  | cons s rl ih =>
    intro size coll hsz
    by_cases hc : size + countWords s ≤ ov
    · obtain ⟨k, hk, h1, h2, h3, h4⟩ := ih (size + countWords s) (s :: coll) hc
      refine ⟨k + 1, by simpa using hk, ?_, ?_, ?_, ?_⟩
      · simp only [overlapSeedAux, if_pos hc]
        rw [h1, List.take_succ_cons, List.reverse_cons]
        simp
      · simp only [overlapSeedAux, if_pos hc]
        rw [h2, List.take_succ_cons, wordSum_cons]
        omega
      · rw [List.take_succ_cons, wordSum_cons]
        omega
      · intro hklt
        rw [List.take_succ_cons, wordSum_cons]
        have hk2 : k < rl.length := by simpa using hklt
        have := h4 hk2
        omega
    · refine ⟨0, Nat.zero_le _, by simp [overlapSeedAux, if_neg hc],
        by simp [overlapSeedAux, if_neg hc, wordSum], by simpa [wordSum] using hsz, ?_⟩
      intro _
      rw [List.take_succ_cons]
      simp only [List.take_zero, wordSum_cons]
      have : wordSum ([] : List String) = 0 := rfl
      omega

theorem overlapSeed_spec (ov : Nat) (cur : List String) :
    (overlapSeed ov cur).1 <:+ cur ∧
    (overlapSeed ov cur).2 = wordSum (overlapSeed ov cur).1 ∧
    wordSum (overlapSeed ov cur).1 ≤ ov ∧
    (∀ suf, suf <:+ cur → wordSum suf ≤ ov →
      suf.length ≤ (overlapSeed ov cur).1.length) := by
  obtain ⟨k, hk, h1, h2, h3, h4⟩ :=
    overlapSeedAux_spec ov cur.reverse 0 [] (Nat.zero_le _)
  have hk' : k ≤ cur.length := by simpa using hk
  have hseed : (overlapSeed ov cur).1 = (cur.reverse.take k).reverse := by
    simpa [overlapSeed] using h1
  have hsplit : cur = (cur.reverse.drop k).reverse ++ (cur.reverse.take k).reverse := by
    conv_lhs => rw [← List.reverse_reverse cur, ← List.take_append_drop k cur.reverse,
      List.reverse_append]
  have hlen : (overlapSeed ov cur).1.length = k := by
    rw [hseed]
    simp
    omega
  refine ⟨?_, ?_, ?_, ?_⟩
  · rw [hseed]
    exact ⟨(cur.reverse.drop k).reverse, hsplit.symm⟩
  · rw [hseed, wordSum_reverse]
    simpa [overlapSeed] using h2
  · rw [hseed, wordSum_reverse]
    omega
  · intro suf hsuf hws
    rw [hlen]
    by_contra hlt
    push_neg at hlt
    have hkcur : k < cur.length := lt_of_lt_of_le hlt hsuf.length_le
    have hkr : k < cur.reverse.length := by simpa using hkcur
    have hgt := h4 hkr
    have hs1 : (cur.reverse.take (k + 1)).reverse <:+ cur := by
      conv_rhs => rw [← List.reverse_reverse cur,
        ← List.take_append_drop (k + 1) cur.reverse, List.reverse_append]
      exact ⟨(cur.reverse.drop (k + 1)).reverse, rfl⟩
    have hs1len : (cur.reverse.take (k + 1)).reverse.length = k + 1 := by
      simp
      omega
    have hsub : (cur.reverse.take (k + 1)).reverse <:+ suf := by
      apply List.suffix_of_suffix_length_le hs1 hsuf
      rw [hs1len]
      omega
    obtain ⟨t, ht⟩ := hsub
    have : wordSum suf = wordSum t + wordSum (cur.reverse.take (k + 1)) := by
      rw [← ht, wordSum_append, wordSum_reverse]
    omega

theorem hasBoundary_tail {c : Char} {l : List Char} :
    hasBoundary (c :: l) = false → hasBoundary l = false := by
  cases l with
  | nil => intro _; rfl
  | cons d r =>
    intro h
    simp only [hasBoundary, Bool.or_eq_false_iff] at h
    exact h.2

theorem splitSentencesAux_no_boundary :
    ∀ (l : List Char) (p : Option Char) (acc : List Char),
      (∀ q, p = some q → isSentenceEnd q = true) →
      hasBoundary (p.toList ++ l) = false →
      splitSentencesAux l false p acc = [acc.reverse ++ p.toList ++ l] := by
  intro l
  induction l with
  | nil =>
    intro p acc hp hb
    cases p with
    | none => simp [splitSentencesAux]
    | some q => simp [splitSentencesAux]
  | cons c rest ih =>
    intro p acc hp hb
    cases p with
    | none =>
      simp only [Option.toList_none, List.nil_append] at hb ⊢
      by_cases hse : isSentenceEnd c = true
      · have hrec := ih (some c) acc (by intro q hq; cases hq; exact hse)
          (by simpa using hb)
        simp only [splitSentencesAux, Bool.false_eq_true, if_false, hse, if_true, hrec]
        simp
      · have hrec := ih none (c :: acc) (by intro q hq; cases hq)
          (by simpa using hasBoundary_tail hb)
        simp only [splitSentencesAux, Bool.false_eq_true, if_false, hse, hrec]
        simp
    | some q =>
      have hq : isSentenceEnd q = true := hp q rfl
      have hb' : (isSentenceEnd q && c.isWhitespace) = false ∧
          hasBoundary (c :: rest) = false := by
        simpa [hasBoundary, Bool.or_eq_false_iff] using hb
      have hcw : c.isWhitespace = false := by
        have := hb'.1
        rwa [hq, Bool.true_and] at this
      by_cases hse : isSentenceEnd c = true
      · have hrec := ih (some c) (q :: acc) (by intro r hr; cases hr; exact hse)
          (by simpa using hb'.2)
        simp only [splitSentencesAux, Bool.false_eq_true, if_false, hcw, hse, if_true,
          hrec]
        simp
      · have hrec := ih none (c :: q :: acc) (by intro r hr; cases hr)
          (by simpa using hasBoundary_tail hb'.2)
        simp only [splitSentencesAux, Bool.false_eq_true, if_false, hcw, hse, hrec]
        simp

theorem chunk_text_no_boundary (text : String) (cs ov : Nat)
    (hb : hasBoundary text.data = false) (hne : pyStrip text ≠ "") :
    chunk_text text cs ov = some [pyStrip text] := by
  have heta : String.mk text.data = text := rfl
  have hsp : splitSentences text = [text.data] := by
    have := splitSentencesAux_no_boundary text.data none []
      (by intro q hq; cases hq) (by simpa using hb)
    simpa [splitSentences] using this
  have hst : sentencesOf text = [pyStrip text] := by
    simp [sentencesOf, hsp, heta, hne]
  simp only [chunk_text, hst]
  rw [if_neg (by simp)]
  simp [sentLoop, joinWords]

/-- C4 counterexample: on
`"one two three. four five six"` with `chunk_size = 5`, `overlap = 2`, the
emitted chunk is `"one two three"` whose smallest suffix with word count
`≥ 2` is `"two three"`, yet the next chunk is `"four five six"` — the seed
is empty because the code keeps the largest sentence-suffix of word count
`≤ overlap`; and on the boundary-free text `"a b c d"` with
`chunk_size = 2` the chunker returns one four-word chunk instead of the
claimed word-window split. -/
theorem c4_counterexample :
    chunk_text "one two three. four five six" 5 2
      = some ["one two three", "four five six"] ∧
    countWords "two three" = 2 ∧
    "four five six" ≠ "two three four five six" ∧
    chunk_text "a b c d" 2 1 = some ["a b c d"] ∧
    wwLoop (pySplit "a b c d") 2 1 5 0 [] = some ["a b", "b c", "c d"] ∧
    (["a b c d"] : List String) ≠ ["a b", "b c", "c d"] := by
  refine ⟨by decide, by decide, by decide, by decide, by decide, by decide⟩

/-- C4 (amended): the chunker seeds the next chunk with the *largest* suffix
of the emitted chunk's sentence list whose total word count is *at most*
`overlap_words` (the returned seed is a suffix, its recorded size is its
word count, that count is `≤ overlap`, and every suffix with word count
`≤ overlap` is no longer); text containing no sentence boundary but a
non-blank body produces a single chunk equal to the stripped text (the
word-window fallback is not taken); the pure word-window split runs only
when the sentence split yields no non-blank piece. -/
theorem c4_chunker_amended (ov cs : Nat) (cur : List String) (text : String) :
    ((overlapSeed ov cur).1 <:+ cur ∧
     (overlapSeed ov cur).2 = wordSum (overlapSeed ov cur).1 ∧
     wordSum (overlapSeed ov cur).1 ≤ ov ∧
     (∀ suf, suf <:+ cur → wordSum suf ≤ ov →
       suf.length ≤ (overlapSeed ov cur).1.length)) ∧
    (hasBoundary text.data = false → pyStrip text ≠ "" →
      chunk_text text cs ov = some [pyStrip text]) ∧
    (sentencesOf text = [] →
      chunk_text text cs ov
        = wwLoop (pySplit text) cs ov ((pySplit text).length + 1) 0 []) := by
  refine ⟨overlapSeed_spec ov cur, chunk_text_no_boundary text cs ov, ?_⟩
  intro hs
  simp [chunk_text, hs]

/-- C4 amended-claim witness: the boundary-free text `"a b c d"` yields the
single chunk `"a b c d"`, and the seed of `["one two three"]` under
`overlap = 2` is the empty suffix. -/
theorem c4_amended_witness :
    chunk_text "a b c d" 2 2 = some [pyStrip "a b c d"] ∧
    (overlapSeed 2 ["one two three"]).1 <:+ ["one two three"] ∧
    wordSum (overlapSeed 2 ["one two three"]).1 ≤ 2 :=
  ⟨(c4_chunker_amended 2 2 [] "a b c d").2.1 (by decide) (by decide),
   (c4_chunker_amended 2 2 ["one two three"] "x").1.1,
   (c4_chunker_amended 2 2 ["one two three"] "x").1.2.2.1⟩

/-! ### C3: vector store search -/

theorem sqDist_nonneg (q v : List ℚ) : 0 ≤ sqDist q v := by
  induction q generalizing v with
  | nil => simp [sqDist]
  | cons a as ih =>
    cases v with
    | nil => simp [sqDist]
    | cons b bs =>
      have h1 := ih bs
      have h2 : 0 ≤ (a - b) ^ 2 := sq_nonneg _
      simp only [sqDist, List.zipWith_cons_cons, List.sum_cons] at *
      linarith

theorem insertByDist_length (x : Nat × ℚ) (l : List (Nat × ℚ)) :
    (insertByDist x l).length = l.length + 1 := by
  induction l with
  | nil => rfl
  | cons y ys ih =>
    simp only [insertByDist]
    split_ifs
    · simp
    · simp [ih]

theorem mem_insertByDist (x y : Nat × ℚ) (l : List (Nat × ℚ)) :
    y ∈ insertByDist x l ↔ y = x ∨ y ∈ l := by
  induction l with
  | nil => simp [insertByDist]
  | cons z zs ih =>
    simp only [insertByDist]
    split_ifs
    · simp
    · simp only [List.mem_cons, ih]
      tauto

theorem insertByDist_pairwise (x : Nat × ℚ) (l : List (Nat × ℚ))
    (h : l.Pairwise (fun a b => a.2 ≤ b.2)) :
    (insertByDist x l).Pairwise (fun a b => a.2 ≤ b.2) := by
  induction l with
  | nil => simp [insertByDist]
  | cons y ys ih =>
    rw [List.pairwise_cons] at h
    simp only [insertByDist]
    split_ifs with hle
    · rw [List.pairwise_cons]
      refine ⟨?_, List.pairwise_cons.mpr h⟩
      intro b hb
      rcases List.mem_cons.mp hb with hb | hb
      · exact hb ▸ hle
      · exact le_trans hle (h.1 b hb)
    · rw [List.pairwise_cons]
      refine ⟨?_, ih h.2⟩
      intro b hb
      rcases (mem_insertByDist x b ys).mp hb with hb | hb
      · exact hb ▸ le_of_not_le hle
      · exact h.1 b hb

theorem sortByDist_length (l : List (Nat × ℚ)) : (sortByDist l).length = l.length := by
  induction l with
  | nil => rfl
  | cons x xs ih => simp [sortByDist, insertByDist_length, ih]

theorem mem_sortByDist (y : Nat × ℚ) (l : List (Nat × ℚ)) :
    y ∈ sortByDist l ↔ y ∈ l := by
  induction l with
  | nil => simp [sortByDist]
  | cons x xs ih => simp [sortByDist, mem_insertByDist, ih]

theorem sortByDist_pairwise (l : List (Nat × ℚ)) :
    (sortByDist l).Pairwise (fun a b => a.2 ≤ b.2) := by
  induction l with
  | nil => simp [sortByDist]
  | cons x xs ih => exact insertByDist_pairwise x _ ih

theorem searchCandidates_length (index : List (List ℚ)) (qv : List ℚ)
    (topK : Nat) (thr : ℚ) :
    (searchCandidates index qv topK thr).length
      = min (searchK index.length topK thr) index.length := by
  simp [searchCandidates, faissSearch, sortByDist_length]

theorem searchCandidates_sorted (index : List (List ℚ)) (qv : List ℚ)
    (topK : Nat) (thr : ℚ) :
    (searchCandidates index qv topK thr).Pairwise (fun a b => a.2 ≤ b.2) :=
  (sortByDist_pairwise _).sublist (List.take_sublist _ _)

theorem searchCandidates_nonneg (index : List (List ℚ)) (qv : List ℚ)
    (topK : Nat) (thr : ℚ) :
    ∀ p ∈ searchCandidates index qv topK thr, 0 ≤ p.2 := by
  intro p hp
  have h1 : p ∈ sortByDist ((index.map (sqDist qv)).enum) :=
    List.mem_of_mem_take hp
  have h2 := (mem_sortByDist _ _).mp h1
  have h3 : p.2 ∈ index.map (sqDist qv) :=
    List.getElem?_mem (List.mem_enum_iff_getElem?.mp h2)
  obtain ⟨v, _, he⟩ := List.mem_map.mp h3
  exact he ▸ sqDist_nonneg qv v

theorem simOf_antitone {d1 d2 : ℚ} (h0 : 0 ≤ d1) (h : d1 ≤ d2) :
    simOf d2 ≤ simOf d1 := by
  simp only [simOf, ge_iff_le]
  rw [if_pos h0, if_pos (le_trans h0 h)]
  exact one_div_le_one_div_of_le (by linarith) (by linarith)

theorem searchFilterLoop_eq (topK : Nat) (thr : ℚ) :
    ∀ (l : List (Nat × ℚ)) (acc : List (Nat × ℚ × ℚ)), acc.length < topK →
      searchFilterLoop topK thr acc l
        = acc ++ ((l.map (fun p => (p.1, p.2, simOf p.2))).filter
            (fun t => decide (thr ≤ t.2.2))).take (topK - acc.length) := by
  intro l
  induction l with
  | nil =>
    intro acc _
    simp [searchFilterLoop]
  | cons x rest ih =>
    intro acc hacc
    simp only [searchFilterLoop]
    by_cases hpass : simOf x.2 ≥ thr
    · rw [if_pos hpass]
      by_cases hfull : topK ≤ (acc ++ [(x.1, x.2, simOf x.2)]).length
      · rw [if_pos hfull]
        have hone : topK - acc.length = 1 := by
          simp only [List.length_append, List.length_cons, List.length_nil] at hfull
          omega
        simp [List.filter_cons, hpass, hone, ge_iff_le]
      · rw [if_neg hfull]
        rw [ih _ (by
          simp only [List.length_append, List.length_cons, List.length_nil] at hfull ⊢
          omega)]
        have hsucc : topK - acc.length = (topK - (acc ++ [(x.1, x.2, simOf x.2)]).length) + 1 := by
          simp only [List.length_append, List.length_cons, List.length_nil] at hfull ⊢
          omega
        simp [List.filter_cons, hpass, ge_iff_le, hsucc, List.take_succ_cons]
    · rw [if_neg hpass]
      rw [ih _ hacc]
      have : ¬ thr ≤ simOf x.2 := hpass
      simp [List.filter_cons, this]

/-- C3: with a non-empty index and `min_similarity > 0`, `search` fetches
`min(3 * top_k, |index|)` candidates, keeps only results whose similarity
is at least the threshold, and returns at most `top_k` results in
descending-similarity order; with `min_similarity = 0` it returns exactly
`min(top_k, |index|)` results in descending-similarity order, unfiltered. -/
theorem c3_search_spec (index : List (List ℚ)) (qv : List ℚ) (topK : Nat) (thr : ℚ)
    (hne : index ≠ []) :
    (0 < thr →
      (searchCandidates index qv topK thr).length = min (topK * 3) index.length ∧
      (search index qv topK thr).length ≤ topK ∧
      (∀ t ∈ search index qv topK thr, thr ≤ t.2.2) ∧
      (search index qv topK thr).Pairwise (fun a b => b.2.2 ≤ a.2.2)) ∧
    (thr = 0 →
      (search index qv topK thr).length = min topK index.length ∧
      (search index qv topK thr).Pairwise (fun a b => b.2.2 ≤ a.2.2)) := by
  have hlen0 : index.length ≠ 0 := fun h => hne (List.length_eq_zero.mp h)
  have hdesc : ((searchCandidates index qv topK thr).map
      (fun p => (p.1, p.2, simOf p.2))).Pairwise
        (fun a b : Nat × ℚ × ℚ => b.2.2 ≤ a.2.2) := by
    rw [List.pairwise_map]
    refine List.Pairwise.imp_of_mem ?_ (searchCandidates_sorted index qv topK thr)
    intro a b ha _ hab
    exact simOf_antitone (searchCandidates_nonneg index qv topK thr a ha) hab
  constructor
  · intro hthr
    have hK : searchK index.length topK thr = min (topK * 3) index.length := by
      simp [searchK, hthr]
    have hclen := searchCandidates_length index qv topK thr
    rw [hK] at hclen
    refine ⟨by omega, ?_, ?_, ?_⟩
    · by_cases htop : topK = 0
      · subst htop
        have : (searchCandidates index qv 0 thr).length = 0 := by omega
        have hcand : searchCandidates index qv 0 thr = [] := List.length_eq_zero.mp this
        simp [search, hlen0, ne_of_gt hthr, hcand, searchFilterLoop]
      · have h0 : (0 : Nat) < topK := Nat.pos_of_ne_zero htop
        simp only [search, if_neg hlen0, if_neg (ne_of_gt hthr)]
        rw [searchFilterLoop_eq topK thr _ [] (by simpa using h0)]
        simp only [List.nil_append, Nat.sub_zero]
        exact List.length_take_le _ _
    · intro t ht
      by_cases htop : topK = 0
      · subst htop
        have : (searchCandidates index qv 0 thr).length = 0 := by omega
        have hcand : searchCandidates index qv 0 thr = [] := List.length_eq_zero.mp this
        simp [search, hlen0, ne_of_gt hthr, hcand, searchFilterLoop] at ht
      · have h0 : (0 : Nat) < topK := Nat.pos_of_ne_zero htop
        simp only [search, if_neg hlen0, if_neg (ne_of_gt hthr)] at ht
        rw [searchFilterLoop_eq topK thr _ [] (by simpa using h0)] at ht
        simp only [List.nil_append, Nat.sub_zero] at ht
        have h1 := List.mem_of_mem_take ht
        have h2 := (List.mem_filter.mp h1).2
        simpa using h2
    · by_cases htop : topK = 0
      · subst htop
        have : (searchCandidates index qv 0 thr).length = 0 := by omega
        have hcand : searchCandidates index qv 0 thr = [] := List.length_eq_zero.mp this
        simp [search, hlen0, ne_of_gt hthr, hcand, searchFilterLoop]
      · have h0 : (0 : Nat) < topK := Nat.pos_of_ne_zero htop
        simp only [search, if_neg hlen0, if_neg (ne_of_gt hthr)]
        rw [searchFilterLoop_eq topK thr _ [] (by simpa using h0)]
        simp only [List.nil_append, Nat.sub_zero]
        exact hdesc.sublist
          ((List.take_sublist _ _).trans (List.filter_sublist _))
  · intro hthr
    subst hthr
    have hK : searchK index.length topK 0 = min topK index.length := by
      simp [searchK]
    have hclen := searchCandidates_length index qv topK 0
    rw [hK] at hclen
    constructor
    · simp only [search, if_neg hlen0, eq_self_iff_true, if_true]
      rw [List.length_map, List.length_take]
      omega
    · simp only [search, if_neg hlen0, eq_self_iff_true, if_true]
      exact (hdesc.sublist ((List.take_sublist _ _).map _))

/-- C3 witness: on the three-vector index `[[0], [1], [2]]` with query `[0]`,
threshold `1/2` returns at most one result all above threshold, and
threshold `0` returns exactly `min(2, 3)` results. -/
theorem c3_witness :
    (search [[(0 : ℚ)], [1], [2]] [0] 1 (1 / 2)).length ≤ 1 ∧
    (∀ t ∈ search [[(0 : ℚ)], [1], [2]] [0] 1 (1 / 2), (1 : ℚ) / 2 ≤ t.2.2) ∧
    (search [[(0 : ℚ)], [1], [2]] [0] 2 0).length = min 2 3 := by
  refine ⟨((c3_search_spec [[(0 : ℚ)], [1], [2]] [0] 1 (1 / 2)
      (by simp)).1 (by norm_num)).2.1,
    ((c3_search_spec [[(0 : ℚ)], [1], [2]] [0] 1 (1 / 2)
      (by simp)).1 (by norm_num)).2.2.1, ?_⟩
  have h := ((c3_search_spec [[(0 : ℚ)], [1], [2]] [0] 2 0 (by simp)).2 rfl).1
  simpa using h

/-! ### C2: index querying -/

theorem mem_dedupFirstAux (j : Int) :
    ∀ (l s : List Int), j ∈ dedupFirstAux s l ↔ j ∉ s ∧ j ∈ l := by
  intro l
  induction l with
  | nil => simp [dedupFirstAux]
  | cons x xs ih =>
    intro s
    simp only [dedupFirstAux]
    by_cases hx : x ∈ s
    · rw [if_pos hx, ih]
      constructor
      · rintro ⟨h1, h2⟩
        exact ⟨h1, List.mem_cons_of_mem _ h2⟩
      · rintro ⟨h1, h2⟩
        rcases List.mem_cons.mp h2 with rfl | h2
        · exact absurd hx h1
        · exact ⟨h1, h2⟩
    · rw [if_neg hx]
      simp only [List.mem_cons, ih, List.mem_cons]
      constructor
      · rintro (rfl | ⟨h1, h2⟩)
        · exact ⟨hx, Or.inl rfl⟩
        · exact ⟨fun hs => h1 (Or.inr hs), Or.inr h2⟩
      · rintro ⟨h1, rfl | h2⟩
        · exact Or.inl rfl
        · by_cases hjx : j = x
          · exact Or.inl hjx
          · exact Or.inr ⟨fun hs => hs.elim hjx h1, h2⟩

theorem dedupFirstAux_congr :
    ∀ (l s1 s2 : List Int), (∀ j, j ∈ s1 ↔ j ∈ s2) →
      dedupFirstAux s1 l = dedupFirstAux s2 l := by
  intro l
  induction l with
  | nil => intro s1 s2 _; rfl
  | cons x xs ih =>
    intro s1 s2 h
    simp only [dedupFirstAux]
    by_cases hx : x ∈ s1
    · rw [if_pos hx, if_pos ((h x).mp hx)]
      exact ih s1 s2 h
    · rw [if_neg hx, if_neg (fun h2 => hx ((h x).mpr h2))]
      refine congrArg _ (ih _ _ ?_)
      intro j
      simp only [List.mem_cons, h j]

theorem dedupFirstAux_append :
    ∀ (A s B : List Int),
      dedupFirstAux s (A ++ B) = dedupFirstAux s A ++ dedupFirstAux (A ++ s) B := by
  intro A
  induction A with
  | nil =>
    intro s B
    simp [dedupFirstAux]
  | cons x A' ih =>
    intro s B
    simp only [List.cons_append, dedupFirstAux, List.append_eq]
    by_cases hx : x ∈ s
    · rw [if_pos hx, if_pos hx, ih]
      refine congrArg _ (dedupFirstAux_congr B _ _ ?_)
      intro j
      simp only [List.mem_append, List.mem_cons]
      constructor
      · intro h
        exact Or.inr h
      · rintro (rfl | h)
        · exact Or.inr hx
        · exact h
    · rw [if_neg hx, if_neg hx, ih, List.cons_append]
      refine congrArg _ (congrArg _ (dedupFirstAux_congr B _ _ ?_))
      intro j
      simp only [List.mem_append, List.mem_cons]
      tauto

theorem dedupFirstAux_nodup : ∀ (l s : List Int), (dedupFirstAux s l).Nodup := by
  intro l
  induction l with
  | nil => intro s; simp [dedupFirstAux]
  | cons x xs ih =>
    intro s
    simp only [dedupFirstAux]
    by_cases hx : x ∈ s
    · rw [if_pos hx]
      exact ih s
    · rw [if_neg hx]
      refine List.nodup_cons.mpr ⟨?_, ih _⟩
      intro hmem
      exact ((mem_dedupFirstAux x xs _).mp hmem).1 (List.mem_cons_self x s)

theorem addHits_spec (metadata : List ChunkMeta) :
    ∀ (idxs seen : List Int) (sel : List ChunkMeta),
      (addHits metadata idxs seen sel).2
        = sel ++ (dedupFirstAux seen (idxs.filter (validPos metadata))).map
            (fun i => metadata.getD i.toNat default) ∧
      (∀ j : Int, j ∈ (addHits metadata idxs seen sel).1 ↔
        j ∈ seen ∨ j ∈ idxs.filter (validPos metadata)) := by
  intro idxs
  induction idxs with
  | nil =>
    intro seen sel
    simp [addHits, dedupFirstAux]
  | cons idx rest ih =>
    intro seen sel
    by_cases hv : validPos metadata idx = true
    · have hvP : (0 ≤ idx ∧ idx < (metadata.length : Int)) ∧
          ¬ pyStrip (metadata.getD idx.toNat default).text = "" := by
        have hv2 := hv
        simp only [validPos, Bool.and_eq_true, decide_eq_true_eq, ne_eq] at hv2
        exact ⟨⟨hv2.1.1, hv2.1.2⟩, hv2.2⟩
      by_cases hseen : idx ∈ seen
      · have h1 := ih seen sel
        simp only [addHits, if_pos hvP.1, if_neg hvP.2, if_pos hseen,
          List.filter_cons, hv, if_true, dedupFirstAux]
        refine ⟨h1.1, ?_⟩
        intro j
        rw [h1.2 j]
        simp only [List.mem_cons]
        constructor
        · rintro (h | h)
          · exact Or.inl h
          · exact Or.inr (Or.inr h)
        · rintro (h | rfl | h)
          · exact Or.inl h
          · exact Or.inl hseen
          · exact Or.inr h
      · have h1 := ih (idx :: seen) (sel ++ [metadata.getD idx.toNat default])
        simp only [addHits, if_pos hvP.1, if_neg hvP.2, if_neg hseen,
          List.filter_cons, hv, if_true, dedupFirstAux]
        refine ⟨?_, ?_⟩
        · rw [h1.1]
          simp [List.append_assoc]
        · intro j
          rw [h1.2 j]
          simp only [List.mem_cons]
          tauto
    · have hvP : ¬ ((0 ≤ idx ∧ idx < (metadata.length : Int)) ∧
          ¬ pyStrip (metadata.getD idx.toNat default).text = "") := by
        intro hc
        apply hv
        simp only [validPos, Bool.and_eq_true, decide_eq_true_eq, ne_eq]
        exact ⟨⟨hc.1.1, hc.1.2⟩, hc.2⟩
      have hskip : addHits metadata (idx :: rest) seen sel
          = addHits metadata rest seen sel := by
        by_cases hr : 0 ≤ idx ∧ idx < (metadata.length : Int)
        · have htext : pyStrip (metadata.getD idx.toNat default).text = "" := by
            by_contra hh
            exact hvP ⟨hr, hh⟩
          simp only [addHits]
          rw [if_pos hr, if_pos htext]
        · simp only [addHits]
          rw [if_neg hr]
      rw [hskip]
      have hfc : (idx :: rest).filter (validPos metadata)
          = rest.filter (validPos metadata) := by
        simp [List.filter_cons, hv]
      rw [hfc]
      exact ih seen sel

theorem queryStep_eq (metadata : List ChunkMeta)
    (sr : String → Option (List Int × List Int)) (q : String)
    (st : List Int × List ChunkMeta) :
    queryStep metadata (sr q) st = addHits metadata (usedHits sr q) st.1 st.2 := by
  cases h : sr q with
  | none => simp [queryStep, usedHits, h, addHits]
  | some hits => simp [queryStep, usedHits, h]


theorem queryFold_spec (metadata : List ChunkMeta)
    (sr : String → Option (List Int × List Int)) :
    ∀ (queries : List String) (seen : List Int) (sel : List ChunkMeta),
      (queries.foldl (fun st q => queryStep metadata (sr q) st) (seen, sel)).2
        = sel ++ (dedupFirstAux seen
            ((queries.map (fun q =>
              (usedHits sr q).filter (validPos metadata))).flatten)).map
                (fun i => metadata.getD i.toNat default) ∧
      (∀ j : Int,
        j ∈ (queries.foldl (fun st q => queryStep metadata (sr q) st) (seen, sel)).1 ↔
          j ∈ seen ∨
            j ∈ (queries.map (fun q =>
              (usedHits sr q).filter (validPos metadata))).flatten) := by
  intro queries
  induction queries with
  | nil =>
    intro seen sel
    simp [dedupFirstAux]
  | cons q qs ih =>
    intro seen sel
    have hstep := queryStep_eq metadata sr q (seen, sel)
    rcases hst1 : addHits metadata (usedHits sr q) seen sel with ⟨s1, l1⟩
    have ha := addHits_spec metadata (usedHits sr q) seen sel
    rw [hst1] at ha
    have ha1 : l1 = sel ++ (dedupFirstAux seen
        ((usedHits sr q).filter (validPos metadata))).map
          (fun i => metadata.getD i.toNat default) := ha.1
    have ha2 : ∀ j : Int, j ∈ s1 ↔
        j ∈ seen ∨ j ∈ (usedHits sr q).filter (validPos metadata) := ha.2
    have hih := ih s1 l1
    have hcg : dedupFirstAux s1
          ((qs.map (fun q => (usedHits sr q).filter (validPos metadata))).flatten)
        = dedupFirstAux ((usedHits sr q).filter (validPos metadata) ++ seen)
            ((qs.map (fun q => (usedHits sr q).filter (validPos metadata))).flatten) := by
      refine dedupFirstAux_congr _ _ _ ?_
      intro j
      rw [ha2 j]
      simp only [List.mem_append]
      tauto
    simp only [List.foldl_cons, hstep, hst1, List.map_cons, List.flatten_cons]
    constructor
    · rw [hih.1, ha1, hcg, dedupFirstAux_append, List.map_append, List.append_assoc]
    · intro j
      rw [hih.2 j, ha2 j]
      simp only [List.mem_append]
      tauto

theorem fallbackHeadLoop_spec (topK : Nat) :
    ∀ (l acc : List ChunkMeta),
      ∃ S, fallbackHeadLoop topK acc l = acc ++ S ∧ List.Sublist S l ∧
        ∀ c ∈ S, pyStrip c.text ≠ "" := by
  intro l
  induction l with
  | nil =>
    intro acc
    exact ⟨[], by simp [fallbackHeadLoop], List.Sublist.refl [], by simp⟩
  | cons c cs ih =>
    intro acc
    simp only [fallbackHeadLoop]
    by_cases htext : pyStrip c.text ≠ ""
    · rw [if_pos htext]
      by_cases hfull : topK ≤ (acc ++ [c]).length
      · rw [if_pos hfull]
        refine ⟨[c], rfl, ?_, by simpa using htext⟩
        exact (List.nil_sublist cs).cons₂ c
      · rw [if_neg hfull]
        obtain ⟨S, hS, hsub, hprop⟩ := ih (acc ++ [c])
        refine ⟨c :: S, by rw [hS]; simp, hsub.cons₂ c, ?_⟩
        intro d hd
        rcases List.mem_cons.mp hd with rfl | hd
        · exact htext
        · exact hprop d hd
    · rw [if_neg htext]
      by_cases hfull : topK ≤ acc.length
      · rw [if_pos hfull]
        exact ⟨[], by simp, List.nil_sublist _, by simp⟩
      · rw [if_neg hfull]
        obtain ⟨S, hS, hsub, hprop⟩ := ih acc
        exact ⟨S, hS, hsub.cons c, hprop⟩

theorem sublist_exists_positions (S metadata : List ChunkMeta)
    (h : List.Sublist S metadata) :
    ∃ ps : List Nat, S = ps.map (fun p => metadata.getD p default) ∧ ps.Nodup ∧
      ∀ p ∈ ps, p < metadata.length := by
  obtain ⟨is, heq, hlt⟩ := List.sublist_eq_map_getElem h
  refine ⟨is.map Fin.val, ?_, ?_, ?_⟩
  · rw [heq, List.map_map]
    refine List.map_congr_left ?_
    intro i _
    exact (List.getD_eq_getElem metadata default i.isLt).symm
  · exact List.Nodup.map Fin.val_injective
      (List.Pairwise.imp (fun h => Fin.ne_of_lt h) hlt)
  · intro p hp
    obtain ⟨i, _, rfl⟩ := List.mem_map.mp hp
    exact i.isLt

theorem mem_retrievedStream_valid (metadata : List ChunkMeta)
    (sr : String → Option (List Int × List Int)) (queries : List String)
    (i : Int) (h : i ∈ retrievedStream metadata sr queries) :
    validPos metadata i = true := by
  obtain ⟨l, hl, hi⟩ := List.mem_flatten.mp h
  obtain ⟨q, _, rfl⟩ := List.mem_map.mp hl
  exact (List.mem_filter.mp hi).2

/-- C2: for every successful `query_index` call, the returned chunks are the
metadata entries at a duplicate-free list of in-range positions, each with
non-blank text; and whenever at least one valid hit was retrieved, the
result is exactly the first-occurrence deduplication of the valid hit
positions in retrieval order across the submitted queries. -/
theorem c2_query_index_spec (metadata : List ChunkMeta)
    (sr : String → Option (List Int × List Int)) (queries : List String)
    (topK : Nat) (chunks : List ChunkMeta)
    (h : query_index metadata sr queries topK = Except.ok chunks) :
    (∃ ps : List Nat,
      chunks = ps.map (fun p => metadata.getD p default) ∧
      ps.Nodup ∧
      (∀ p ∈ ps, p < metadata.length ∧
        pyStrip (metadata.getD p default).text ≠ "")) ∧
    (retrievedStream metadata sr queries ≠ [] →
      chunks = (dedupFirst (retrievedStream metadata sr queries)).map
        (fun i => metadata.getD i.toNat default)) := by
  by_cases hm : metadata.isEmpty
  · simp [query_index, hm] at h
  · have hq := queryFold_spec metadata sr queries [] []
    have hsel2 : (queries.foldl (fun st q => queryStep metadata (sr q) st) ([], [])).2
        = (dedupFirst (retrievedStream metadata sr queries)).map
            (fun i => metadata.getD i.toNat default) := by
      rw [hq.1]
      simp [dedupFirst, retrievedStream]
    simp only [query_index, hm, Bool.false_eq_true, if_false] at h
    by_cases hse :
        (queries.foldl (fun st q => queryStep metadata (sr q) st) ([], [])).2.isEmpty
    · rw [if_pos hse] at h
      have hstream : retrievedStream metadata sr queries = [] := by
        by_contra hne
        cases hsr : retrievedStream metadata sr queries with
        | nil => exact hne hsr
        | cons a rest =>
          have hnil := List.isEmpty_iff.mp hse
          rw [hsel2, hsr] at hnil
          simp [dedupFirst, dedupFirstAux] at hnil
      refine ⟨?_, fun hne => absurd hstream hne⟩
      obtain ⟨S, hS, hsub, hprop⟩ :=
        fallbackHeadLoop_spec topK (metadata.take (min (topK * 2) metadata.length)) []
      have hfb : fallbackHead metadata topK = S := by
        rw [fallbackHead, hS]
        simp
      by_cases hfbe : (fallbackHead metadata topK).isEmpty
      · rw [if_pos hfbe, Except.ok.injEq] at h
        refine ⟨[], ?_, List.nodup_nil, by simp⟩
        rw [← h, List.isEmpty_iff.mp hse]
        simp
      · rw [if_neg hfbe, Except.ok.injEq] at h
        have hsubm : List.Sublist S metadata := hsub.trans (List.take_sublist _ _)
        obtain ⟨ps, hps1, hps2, hps3⟩ := sublist_exists_positions S metadata hsubm
        refine ⟨ps, ?_, hps2, ?_⟩
        · rw [← h, hfb, hps1]
        · intro p hp
          refine ⟨hps3 p hp, ?_⟩
          have hmem : metadata.getD p default ∈ S := by
            rw [hps1]
            exact List.mem_map_of_mem _ hp
          exact hprop _ hmem
    · rw [if_neg hse, Except.ok.injEq] at h
      have hchunks : chunks = (dedupFirst (retrievedStream metadata sr queries)).map
          (fun i => metadata.getD i.toNat default) := by
        rw [← h, hsel2]
      refine ⟨?_, fun _ => hchunks⟩
      refine ⟨(dedupFirst (retrievedStream metadata sr queries)).map Int.toNat, ?_, ?_, ?_⟩
      · rw [hchunks, List.map_map]
        rfl
      · refine List.Nodup.map_on ?_ (dedupFirstAux_nodup _ [])
        intro x hx y hy hxy
        have hvx := mem_retrievedStream_valid metadata sr queries x
          ((mem_dedupFirstAux x _ _).mp hx).2
        have hvy := mem_retrievedStream_valid metadata sr queries y
          ((mem_dedupFirstAux y _ _).mp hy).2
        simp only [validPos, Bool.and_eq_true, decide_eq_true_eq] at hvx hvy
        omega
      · intro p hp
        obtain ⟨i, hi, rfl⟩ := List.mem_map.mp hp
        have hvi := mem_retrievedStream_valid metadata sr queries i
          ((mem_dedupFirstAux i _ _).mp hi).2
        have hvi2 : ((0 ≤ i ∧ i < (metadata.length : Int)) ∧
            ¬ pyStrip (metadata.getD i.toNat default).text = "") := by
          have hv2 := hvi
          simp only [validPos, Bool.and_eq_true, decide_eq_true_eq, ne_eq] at hv2
          exact ⟨⟨hv2.1.1, hv2.1.2⟩, hv2.2⟩
        exact ⟨by omega, hvi2.2⟩

/-- C2 witness: a concrete three-chunk index queried with hits
`[2, 1, 0, 2]` (position 1 blank, position 2 duplicated) returns the
chunks at positions `[2, 0]`. -/
theorem c2_witness :
    (∃ ps : List Nat,
      ([⟨2, "b", "f", 2⟩, ⟨0, "a", "f", 0⟩] : List ChunkMeta)
        = ps.map (fun p =>
            ([⟨0, "a", "f", 0⟩, ⟨1, "", "f", 1⟩, ⟨2, "b", "f", 2⟩] :
              List ChunkMeta).getD p default) ∧
      ps.Nodup ∧
      (∀ p ∈ ps,
        p < ([⟨0, "a", "f", 0⟩, ⟨1, "", "f", 1⟩, ⟨2, "b", "f", 2⟩] :
          List ChunkMeta).length ∧
        pyStrip (([⟨0, "a", "f", 0⟩, ⟨1, "", "f", 1⟩, ⟨2, "b", "f", 2⟩] :
          List ChunkMeta).getD p default).text ≠ "")) ∧
    (retrievedStream [⟨0, "a", "f", 0⟩, ⟨1, "", "f", 1⟩, ⟨2, "b", "f", 2⟩]
        (fun _ => some ([2, 1, 0, 2], [])) ["q"] ≠ [] →
      ([⟨2, "b", "f", 2⟩, ⟨0, "a", "f", 0⟩] : List ChunkMeta)
        = (dedupFirst (retrievedStream
            [⟨0, "a", "f", 0⟩, ⟨1, "", "f", 1⟩, ⟨2, "b", "f", 2⟩]
            (fun _ => some ([2, 1, 0, 2], [])) ["q"])).map
              (fun i => ([⟨0, "a", "f", 0⟩, ⟨1, "", "f", 1⟩, ⟨2, "b", "f", 2⟩] :
                List ChunkMeta).getD i.toNat default)) :=
  c2_query_index_spec
    [⟨0, "a", "f", 0⟩, ⟨1, "", "f", 1⟩, ⟨2, "b", "f", 2⟩]
    (fun _ => some ([2, 1, 0, 2], [])) ["q"] 5
    [⟨2, "b", "f", 2⟩, ⟨0, "a", "f", 0⟩] rfl

end RecallAi
